import Mathlib

/-!
Shallow embedding of the `embed` SNN simulation core (crates `snn-core` and
`snn-core-plus`) and verification of its specification claims.

Machine integers are modelled as `Nat` (u64, u32) and `Int` (i32), with
saturation and wrapping made explicit exactly where the Rust code saturates
or wraps.
-/

namespace Snn

/-- Largest `u64` value; `u64::saturating_add` saturates here. -/
def U64_MAX : Nat := 2 ^ 64 - 1

/-- `u64::saturating_add`. -/
def sadd64 (a b : Nat) : Nat := min (a + b) U64_MAX

/-- Smallest `i32` value. -/
def I32_MIN : Int := -(2 ^ 31)

/-- Largest `i32` value. -/
def I32_MAX : Int := 2 ^ 31 - 1

/-- Clamp an unbounded integer into the `i32` range (used by the
saturating i32 operations). -/
def sat32 (z : Int) : Int := max I32_MIN (min I32_MAX z)

/-- Wrap an unbounded integer into the `i32` range (two's complement), as the
Rust `as i32` narrowing cast does. -/
def wrap32 (z : Int) : Int := (z + 2 ^ 31) % 2 ^ 32 - 2 ^ 31

/-- `fixed::Fixed` is `i32` read as Q16.16. -/
abbrev Fixed := Int

/-- Q16.16 multiply from `plasticity.rs` (`fx_mul`) and `fixed.rs`
(`fixed_mul`): 64-bit product, arithmetic shift right by 16 (floor division
by 2^16), then a wrapping narrowing cast to i32. -/
def fx_mul (a b : Int) : Int := wrap32 (Int.fdiv (a * b) (2 ^ 16))

/-- `fx_add_sat` from `plasticity.rs`: `i32::saturating_add`. -/
def fx_add_sat (a b : Int) : Int := sat32 (a + b)

/-- `fx_sub_sat` from `plasticity.rs`: `i32::saturating_sub`. -/
def fx_sub_sat (a b : Int) : Int := sat32 (a - b)

/-- `event_queue::SpikeEvent`. -/
structure SpikeEvent where
  neuron_id : Nat
  time : Nat
deriving DecidableEq

/-- `event_queue::TimeWheel`: a circular calendar queue. -/
structure TimeWheel where
  buckets : List (List SpikeEvent)
  current_time : Nat
  wheel_size : Nat
deriving DecidableEq

namespace TimeWheel

/-- `TimeWheel::new`: builds `wheel_size` empty buckets and starts at time 0.
Note the constructor is infallible in the source: `wheel_size = 0` yields a
wheel with zero buckets. -/
def new (wheel_size : Nat) : TimeWheel :=
  { buckets := List.replicate wheel_size [], current_time := 0, wheel_size := wheel_size }

/-- `TimeWheel::schedule`, total model: append the event to bucket
`event.time mod wheel_size`. (For a well-formed wheel the slot is in range;
`scheduleOpt` models the panicking behaviour exactly.) -/
def schedule (w : TimeWheel) (e : SpikeEvent) : TimeWheel :=
  let slot := e.time % w.wheel_size
  { w with buckets := w.buckets.set slot (w.buckets.getD slot [] ++ [e]) }

/-- `TimeWheel::next`, total model: take the bucket at
`current_time mod wheel_size`, clear it, and advance time by one
(saturating). -/
def next (w : TimeWheel) : List SpikeEvent × TimeWheel :=
  let slot := w.current_time % w.wheel_size
  let events := w.buckets.getD slot []
  (events, { w with buckets := w.buckets.set slot [],
                    current_time := sadd64 w.current_time 1 })

/-- `TimeWheel::schedule` with Rust panics made explicit: `% 0` and
out-of-bounds bucket indexing both panic, which we model as `none`. -/
def scheduleOpt (w : TimeWheel) (e : SpikeEvent) : Option TimeWheel :=
  if w.wheel_size = 0 then none
  else
    let slot := e.time % w.wheel_size
    if slot < w.buckets.length then
      some { w with buckets := w.buckets.set slot (w.buckets.getD slot [] ++ [e]) }
    else none

/-- `TimeWheel::next` with Rust panics made explicit, as for `scheduleOpt`. -/
def nextOpt (w : TimeWheel) : Option (List SpikeEvent × TimeWheel) :=
  if w.wheel_size = 0 then none
  else
    let slot := w.current_time % w.wheel_size
    if slot < w.buckets.length then
      some (w.buckets.getD slot [],
            { w with buckets := w.buckets.set slot [],
                     current_time := sadd64 w.current_time 1 })
    else none

/-- Well-formedness of a wheel: as built by `new W` for `W ≥ 1` and preserved
by every operation. -/
def WF (w : TimeWheel) : Prop :=
  w.buckets.length = w.wheel_size ∧ 1 ≤ w.wheel_size

instance (w : TimeWheel) : Decidable w.WF := by
  unfold WF; infer_instance

end TimeWheel

/-- A call against the time wheel: used to quantify over arbitrary call
sequences. -/
inductive WheelOp where
  | schedule (e : SpikeEvent)
  | next
deriving DecidableEq

/-- Run a sequence of calls on the total wheel model. -/
def execWheelOps (w : TimeWheel) : List WheelOp → TimeWheel
  | [] => w
  | WheelOp.schedule e :: rest => execWheelOps (w.schedule e) rest
  | WheelOp.next :: rest => execWheelOps (w.next).2 rest

/-- Run a sequence of calls on the panic-explicit wheel model; `none` means
some call panicked. -/
def execWheelOpsOpt (w : TimeWheel) : List WheelOp → Option TimeWheel
  | [] => some w
  | WheelOp.schedule e :: rest =>
      match w.scheduleOpt e with
      | none => none
      | some w' => execWheelOpsOpt w' rest
  | WheelOp.next :: rest =>
      match w.nextOpt with
      | none => none
      | some (_, w') => execWheelOpsOpt w' rest

/-- The slot invariant from the spec: every event residing in bucket `k`
satisfies `e.time mod W = k` (vacuous for indices past the bucket array). -/
def TimeWheel.SlotInv (w : TimeWheel) : Prop :=
  ∀ k : Nat, ∀ e ∈ w.buckets.getD k [], e.time % w.wheel_size = k

instance (w : TimeWheel) : Decidable w.SlotInv := by
  unfold TimeWheel.SlotInv
  have : (∀ k < w.buckets.length, ∀ e ∈ w.buckets.getD k [], e.time % w.wheel_size = k) ↔
      (∀ k : Nat, ∀ e ∈ w.buckets.getD k [], e.time % w.wheel_size = k) := by
    constructor
    · intro h k e he
      by_cases hk : k < w.buckets.length
      · exact h k hk e he
      · rw [List.getD_eq_default] at he
        · exact absurd he (List.not_mem_nil e)
        · omega
    · intro h k _
      exact h k
  exact decidable_of_iff _ this

/-- `neuron::Neuron`. -/
structure Neuron where
  id : Nat
  membrane : Int
  threshold : Int
  refractory_until : Nat
deriving DecidableEq

/-- Placeholder neuron used as the `getD` default at indices that are always
in range. -/
def dummyNeuron : Neuron := ⟨0, 0, 0, 0⟩

/-- `Neuron::new`. The source takes an `f32` threshold and converts it with
`to_fixed`; floats appear only at that construction boundary, so the model
takes the already-converted Q16.16 value. -/
def Neuron.new (id : Nat) (threshold : Int) : Neuron :=
  { id := id, membrane := 0, threshold := threshold, refractory_until := 0 }

/-- `Neuron::inject`: refractory guard, saturating integration, threshold
test with reset-to-zero on fire. Returns the updated neuron and the `fired`
flag. -/
def Neuron.inject (n : Neuron) (input : Int) (time : Nat) : Neuron × Bool :=
  if time < n.refractory_until then (n, false)
  else
    let m := sat32 (n.membrane + input)
    if n.threshold ≤ m then ({ n with membrane := 0 }, true)
    else ({ n with membrane := m }, false)

/-- `hypergraph::HyperEdge`. -/
structure HyperEdge where
  id : Nat
  sources : List Nat
  targets : List Nat
  weight : Int
  delay : Nat
deriving DecidableEq

/-- Placeholder edge used as the `getD` default at indices that are always
in range. -/
def dummyEdge : HyperEdge := ⟨0, [], [], 0, 0⟩

/-- `runtime::SnnRuntime`. -/
structure SnnRuntime where
  neurons : List Neuron
  edges : List HyperEdge
  queue : TimeWheel
deriving DecidableEq

/-- `SnnRuntime::new`. -/
def SnnRuntime.new (wheel_size : Nat) : SnnRuntime :=
  { neurons := [], edges := [], queue := TimeWheel.new wheel_size }

/-- `SnnRuntime::add_neuron`: id is the index of the appended neuron. -/
def SnnRuntime.add_neuron (rt : SnnRuntime) (threshold : Int) : Nat × SnnRuntime :=
  let id := rt.neurons.length
  (id, { rt with neurons := rt.neurons ++ [Neuron.new id threshold] })

/-- `SnnRuntime::add_edge`: id is the index of the appended edge. -/
def SnnRuntime.add_edge (rt : SnnRuntime) (sources targets : List Nat) (weight : Int)
    (delay : Nat) : SnnRuntime :=
  let id := rt.edges.length
  { rt with edges := rt.edges ++
      [{ id := id, sources := sources, targets := targets, weight := weight, delay := delay }] }

/-- `runtime_plus::SnnRuntimePlus` (plasticity feature disabled). -/
structure SnnRuntimePlus where
  inner : SnnRuntime
  source_to_edges : List (List Nat)
deriving DecidableEq

/-- `SnnRuntimePlus::new`. -/
def SnnRuntimePlus.new (wheel_size : Nat) : SnnRuntimePlus :=
  { inner := SnnRuntime.new wheel_size, source_to_edges := [] }

/-- `SnnRuntimePlus::ensure_neuron_capacity` on the adjacency value: grow to
`id + 1` rows with empty rows. -/
def ensureNeuronCapacity (adj : List (List Nat)) (id : Nat) : List (List Nat) :=
  if adj.length < id + 1 then adj ++ List.replicate (id + 1 - adj.length) [] else adj

/-- One source of `SnnRuntimePlus::rebuild_adjacency`: push the edge id onto
row `s` when the row exists. -/
def rebuildStep (eid : Nat) (adj : List (List Nat)) (s : Nat) : List (List Nat) :=
  if s < adj.length then adj.set s (adj.getD s [] ++ [eid]) else adj

/-- One edge of `SnnRuntimePlus::rebuild_adjacency`. -/
def rebuildEdge (adj : List (List Nat)) (edge : HyperEdge) : List (List Nat) :=
  edge.sources.foldl (rebuildStep edge.id) adj

/-- `SnnRuntimePlus::rebuild_adjacency`: rebuild from scratch into
`neurons.len()` rows, dropping sources with no row. -/
def SnnRuntimePlus.rebuild_adjacency (rt : SnnRuntimePlus) : SnnRuntimePlus :=
  { rt with source_to_edges :=
      (rt.inner.edges.foldl rebuildEdge
        (List.replicate rt.inner.neurons.length ([] : List Nat))) }

/-- `SnnRuntimePlus::from_inner`. -/
def SnnRuntimePlus.from_inner (inner : SnnRuntime) : SnnRuntimePlus :=
  SnnRuntimePlus.rebuild_adjacency { inner := inner, source_to_edges := [] }

/-- `SnnRuntimePlus::add_neuron`. -/
def SnnRuntimePlus.add_neuron (rt : SnnRuntimePlus) (threshold : Int) :
    Nat × SnnRuntimePlus :=
  let p := rt.inner.add_neuron threshold
  (p.1, { inner := p.2, source_to_edges := ensureNeuronCapacity rt.source_to_edges p.1 })

/-- One source of `SnnRuntimePlus::add_edge`: grow the adjacency and push the
new edge id onto row `s`. -/
def addEdgeStep (next_id : Nat) (adj : List (List Nat)) (s : Nat) : List (List Nat) :=
  let adj := ensureNeuronCapacity adj s
  adj.set s (adj.getD s [] ++ [next_id])

/-- `SnnRuntimePlus::add_edge`. -/
def SnnRuntimePlus.add_edge (rt : SnnRuntimePlus) (sources targets : List Nat)
    (weight : Int) (delay : Nat) : SnnRuntimePlus :=
  let next_id := rt.inner.edges.length
  { inner := rt.inner.add_edge sources targets weight delay,
    source_to_edges := sources.foldl (addEdgeStep next_id) rt.source_to_edges }

/-- `runtime_plus::StepBudgets`. -/
structure StepBudgets where
  max_edge_visits : Option Nat
  max_spikes_scheduled : Option Nat
deriving DecidableEq

/-- `StepBudgets::default()`: both budgets absent (unbounded). -/
def StepBudgets.defaults : StepBudgets := ⟨none, none⟩

/-- `count >= limit` for an optional budget limit (`None` never trips). -/
def budgetReached (limit : Option Nat) (count : Nat) : Bool :=
  match limit with
  | none => false
  | some m => m ≤ count

/-- Mutable state threaded through the delivery loops of
`step_once_with_budgets`: neurons, wheel, the two work counters, and whether
`break 'events_loop` has run. -/
structure DeliverSt where
  neurons : List Neuron
  queue : TimeWheel
  edge_visits : Nat
  spikes_scheduled : Nat
  aborted : Bool
deriving DecidableEq

/-- The `for &tgt in &edge.targets` loop of `step_once_with_budgets`:
inject, and on fire either schedule the induced spike or trip the
spike-budget (`break 'events_loop`, after the injection already committed). -/
def deliverTargets (b : StepBudgets) (weight : Int) (deliver_time : Nat) :
    List Nat → DeliverSt → DeliverSt
  | [], st => st
  | tgt :: rest, st =>
    if st.aborted then st
    else if tgt < st.neurons.length then
      let p := (st.neurons.getD tgt dummyNeuron).inject weight deliver_time
      let st' := { st with neurons := st.neurons.set tgt p.1 }
      if p.2 then
        if budgetReached b.max_spikes_scheduled st'.spikes_scheduled then
          { st' with aborted := true }
        else
          deliverTargets b weight deliver_time rest
            { st' with queue := st'.queue.schedule ⟨tgt, deliver_time⟩,
                       spikes_scheduled := st'.spikes_scheduled + 1 }
      else deliverTargets b weight deliver_time rest st'
    else deliverTargets b weight deliver_time rest st

/-- The `for &eid in edge_ids` loop of `step_once_with_budgets`: trip the
edge-visit budget before counting, then deliver to the edge's targets when
the id is in range. -/
def deliverEdges (b : StepBudgets) (edges : List HyperEdge) (ev : SpikeEvent) :
    List Nat → DeliverSt → DeliverSt
  | [], st => st
  | eid :: rest, st =>
    if st.aborted then st
    else if budgetReached b.max_edge_visits st.edge_visits then { st with aborted := true }
    else
      let st1 := { st with edge_visits := st.edge_visits + 1 }
      if eid < edges.length then
        let edge := edges.getD eid dummyEdge
        deliverEdges b edges ev rest
          (deliverTargets b edge.weight (sadd64 ev.time edge.delay) edge.targets st1)
      else deliverEdges b edges ev rest st1

/-- The `'events_loop: for ev in &events` loop of
`step_once_with_budgets`: events whose source has no adjacency row are
skipped. -/
def deliverEvents (b : StepBudgets) (adj : List (List Nat)) (edges : List HyperEdge) :
    List SpikeEvent → DeliverSt → DeliverSt
  | [], st => st
  | ev :: rest, st =>
    if st.aborted then st
    else
      match adj[ev.neuron_id]? with
      | none => deliverEvents b adj edges rest st
      | some eids => deliverEvents b adj edges rest (deliverEdges b edges ev eids st)

/-- `SnnRuntimePlus::step_once_with_budgets` (plasticity feature disabled):
pop the current slot, run the delivery loops, return the popped events. -/
def SnnRuntimePlus.step_once_with_budgets (rt : SnnRuntimePlus) (b : StepBudgets) :
    List SpikeEvent × SnnRuntimePlus :=
  let popped := rt.inner.queue.next
  let st := deliverEvents b rt.source_to_edges rt.inner.edges popped.1
    { neurons := rt.inner.neurons, queue := popped.2,
      edge_visits := 0, spikes_scheduled := 0, aborted := false }
  (popped.1,
   { inner := { neurons := st.neurons, edges := rt.inner.edges, queue := st.queue },
     source_to_edges := rt.source_to_edges })

/-- `SnnRuntimePlus::step_once`: step with default (absent) budgets. -/
def SnnRuntimePlus.step_once (rt : SnnRuntimePlus) : List SpikeEvent × SnnRuntimePlus :=
  rt.step_once_with_budgets StepBudgets.defaults

/-- Iterate `step_once`, discarding outputs. -/
def stepN (rt : SnnRuntimePlus) : Nat → SnnRuntimePlus
  | 0 => rt
  | k + 1 => stepN (rt.step_once).2 k

/-- `SnnRuntimePlus::run_until`, fuel-indexed: loop `step_once` while
`current_time <= until`. `none` models the loop still running when the fuel
runs out (with a saturated `current_time` the Rust loop never exits). The
second component counts the `step_once` calls performed. -/
def runUntilFuel : Nat → SnnRuntimePlus → Nat → Option (SnnRuntimePlus × Nat)
  | 0, rt, untilTick =>
    if rt.inner.queue.current_time ≤ untilTick then none else some (rt, 0)
  | fuel + 1, rt, untilTick =>
    if rt.inner.queue.current_time ≤ untilTick then
      match runUntilFuel fuel (rt.step_once).2 untilTick with
      | none => none
      | some p => some (p.1, p.2 + 1)
    else some (rt, 0)

/-- `SnnRuntimePlus::run_ticks`: `run_until(current_time saturating_add ticks)`. -/
def runTicksFuel (fuel : Nat) (rt : SnnRuntimePlus) (ticks : Nat) :
    Option (SnnRuntimePlus × Nat) :=
  runUntilFuel fuel rt (sadd64 rt.inner.queue.current_time ticks)

/-! ### Plasticity: `plasticity::QuantizedStdp` -/

/-- Q16.16 value 1.0, added to a trace on a spike. -/
def fxOne : Int := 2 ^ 16

/-- `plasticity::QuantizedStdp` (parameters and per-neuron traces, all
Q16.16). The source constructor converts `f32` parameters at the boundary;
the model takes the converted values. -/
structure QuantizedStdp where
  a_plus : Int
  a_minus : Int
  alpha_pre : Int
  alpha_post : Int
  w_min : Int
  w_max : Int
  pre_trace : List Int
  post_trace : List Int
deriving DecidableEq

/-- `Vec::resize(need, 0)` when shorter. -/
def resizeTo (l : List Int) (need : Nat) : List Int :=
  if l.length < need then l ++ List.replicate (need - l.length) 0 else l

/-- `QuantizedStdp::ensure_neuron`. -/
def QuantizedStdp.ensure_neuron (s : QuantizedStdp) (id : Nat) : QuantizedStdp :=
  { s with pre_trace := resizeTo s.pre_trace (id + 1),
           post_trace := resizeTo s.post_trace (id + 1) }

/-- `QuantizedStdp::decay` (`PlasticityRule` impl). -/
def QuantizedStdp.decay (s : QuantizedStdp) : QuantizedStdp :=
  { s with pre_trace := s.pre_trace.map (fun tr => fx_mul tr s.alpha_pre),
           post_trace := s.post_trace.map (fun tr => fx_mul tr s.alpha_post) }

/-- `QuantizedStdp::on_pre_spike`: add 1.0 to the pre-trace, saturating. -/
def QuantizedStdp.on_pre_spike (s : QuantizedStdp) (pre : Nat) : QuantizedStdp :=
  let s := s.ensure_neuron pre
  { s with pre_trace :=
      s.pre_trace.set pre (fx_add_sat (s.pre_trace.getD pre 0) fxOne) }

/-- `QuantizedStdp::on_post_spike`: add 1.0 to the post-trace, saturating. -/
def QuantizedStdp.on_post_spike (s : QuantizedStdp) (post : Nat) : QuantizedStdp :=
  let s := s.ensure_neuron post
  { s with post_trace :=
      s.post_trace.set post (fx_add_sat (s.post_trace.getD post 0) fxOne) }

/-- `QuantizedStdp::apply_edge`: saturating LTP/LTD update followed by the
two clamping branches, written back to the weight. Returns the updated rule
state and the written-back weight. -/
def QuantizedStdp.apply_edge (s : QuantizedStdp) (pre post : Nat) (weight : Int) :
    QuantizedStdp × Int :=
  let s := s.ensure_neuron pre
  let s := s.ensure_neuron post
  let pre_tr := s.pre_trace.getD pre 0
  let post_tr := s.post_trace.getD post 0
  let ltp := fx_mul s.a_plus pre_tr
  let ltd := fx_mul s.a_minus post_tr
  let w1 := fx_sub_sat (fx_add_sat weight ltp) ltd
  let w2 := if w1 < s.w_min then s.w_min else w1
  let w3 := if s.w_max < w2 then s.w_max else w2
  (s, w3)

/-! ### Construction-operation sequences (for the adjacency invariant) -/

/-- A construction call on `SnnRuntimePlus`, used to quantify over arbitrary
call sequences. -/
inductive RtOp where
  | addNeuron (threshold : Int)
  | addEdge (sources targets : List Nat) (weight : Int) (delay : Nat)
  | rebuild
deriving DecidableEq

/-- Run a sequence of construction calls. -/
def execRtOps (rt : SnnRuntimePlus) : List RtOp → SnnRuntimePlus
  | [] => rt
  | RtOp.addNeuron th :: rest => execRtOps (rt.add_neuron th).2 rest
  | RtOp.addEdge s t w d :: rest => execRtOps (rt.add_edge s t w d) rest
  | RtOp.rebuild :: rest => execRtOps rt.rebuild_adjacency rest

/-- Validity of a call sequence relative to a running neuron count: each
`add_edge` passes a duplicate-free sources list referring to already-added
neurons (Boolean version, for evaluation). -/
def validOpsB : Nat → List RtOp → Bool
  | _, [] => true
  | n, RtOp.addNeuron _ :: rest => validOpsB (n + 1) rest
  | n, RtOp.addEdge s _ _ _ :: rest =>
      decide s.Nodup && s.all (fun x => decide (x < n)) && validOpsB n rest
  | n, RtOp.rebuild :: rest => validOpsB n rest

/-- Validity of a call sequence relative to a running neuron count
(propositional version). -/
def ValidOps (n : Nat) (ops : List RtOp) : Prop := validOpsB n ops = true

instance (n : Nat) (ops : List RtOp) : Decidable (ValidOps n ops) := by
  unfold ValidOps; infer_instance

/-- The adjacency-consistency invariant of the spec: membership in an
adjacency row matches edge sources (with `id = index` for edges), and no row
holds a duplicate. -/
def AdjInv (rt : SnnRuntimePlus) : Prop :=
  (∀ s : Nat, (rt.source_to_edges.getD s []).Nodup) ∧
  (∀ s e : Nat, e ∈ rt.source_to_edges.getD s [] ↔
      e < rt.inner.edges.length ∧ s ∈ (rt.inner.edges.getD e dummyEdge).sources)

/-- Auxiliary state invariant carried through the construction induction:
edge ids equal indices, every stored edge has in-range and duplicate-free
sources, and the adjacency is consistent. -/
def GoodState (rt : SnnRuntimePlus) : Prop :=
  (∀ i < rt.inner.edges.length, (rt.inner.edges.getD i dummyEdge).id = i) ∧
  (∀ he ∈ rt.inner.edges, ∀ s ∈ he.sources, s < rt.inner.neurons.length) ∧
  (∀ he ∈ rt.inner.edges, he.sources.Nodup) ∧
  AdjInv rt

/-! ### Concrete scenario runtimes -/

/-- A two-neuron runtime with one zero-delay edge `{0} → {1}` whose weight
reaches the target's threshold, and a single seed spike `{0, t}`:
the delay-0 aliasing scenario. -/
def aliasRuntime (W t : Nat) : SnnRuntimePlus :=
  { inner :=
      { neurons := [⟨0, 0, 65536, 0⟩, ⟨1, 0, 1, 0⟩],
        edges := [⟨0, [0], [1], 1, 0⟩],
        queue := { buckets := (List.replicate W []).set (t % W) [⟨0, t⟩],
                   current_time := t, wheel_size := W } },
    source_to_edges := [[0], []] }

/-- A two-neuron runtime with one zero-delay edge `{0} → {1}` with
parametric membrane, threshold and weight for the target, and a single seed
spike `{0, t}`: the budget-trip scenario. -/
def budgetTripRuntime (W t : Nat) (m th wgt : Int) : SnnRuntimePlus :=
  { inner :=
      { neurons := [⟨0, 0, 0, 0⟩, ⟨1, m, th, 0⟩],
        edges := [⟨0, [0], [1], wgt, 0⟩],
        queue := { buckets := (List.replicate W []).set (t % W) [⟨0, t⟩],
                   current_time := t, wheel_size := W } },
    source_to_edges := [[0], []] }

/-- A three-neuron runtime with one zero-delay edge `{0} → {1, 2}` where
target 1 fires on injection and target 2 does not: separates the
spike-budget abort from the remaining injections. -/
def twoTargetRuntime : SnnRuntimePlus :=
  { inner :=
      { neurons := [⟨0, 0, 6553600, 0⟩, ⟨1, 0, 65536, 0⟩, ⟨2, 0, 6553600, 0⟩],
        edges := [⟨0, [0], [1, 2], 65536, 0⟩],
        queue := { buckets := [[⟨0, 0⟩]], current_time := 0, wheel_size := 1 } },
    source_to_edges := [[0], [], []] }

/-! ### Claim-side delivery descriptions (refinement targets) -/

/-- Specification-level description of the target loop under a zero
spike-budget: injections are performed in order up to and including the
first one that fires; nothing is scheduled. The flag reports whether a
firing stopped delivery. -/
def injectOnlyTargets (weight : Int) (deliver_time : Nat) :
    List Nat → List Neuron → List Neuron × Bool
  | [], ns => (ns, false)
  | tgt :: rest, ns =>
    if tgt < ns.length then
      let p := (ns.getD tgt dummyNeuron).inject weight deliver_time
      let ns' := ns.set tgt p.1
      if p.2 then (ns', true) else injectOnlyTargets weight deliver_time rest ns'
    else injectOnlyTargets weight deliver_time rest ns

/-- Specification-level description of the edge loop under a zero
spike-budget. -/
def injectOnlyEdges (edges : List HyperEdge) (ev : SpikeEvent) :
    List Nat → List Neuron → List Neuron × Bool
  | [], ns => (ns, false)
  | eid :: rest, ns =>
    if eid < edges.length then
      let edge := edges.getD eid dummyEdge
      let p := injectOnlyTargets edge.weight (sadd64 ev.time edge.delay) edge.targets ns
      if p.2 then (p.1, true) else injectOnlyEdges edges ev rest p.1
    else injectOnlyEdges edges ev rest ns

/-- Specification-level description of the event loop under a zero
spike-budget. -/
def injectOnlyEvents (adj : List (List Nat)) (edges : List HyperEdge) :
    List SpikeEvent → List Neuron → List Neuron × Bool
  | [], ns => (ns, false)
  | ev :: rest, ns =>
    match adj[ev.neuron_id]? with
    | none => injectOnlyEvents adj edges rest ns
    | some eids =>
      let p := injectOnlyEdges edges ev eids ns
      if p.2 then (p.1, true) else injectOnlyEvents adj edges rest p.1

/-! ### List helper lemmas -/

theorem getD_set_self {α : Type} (l : List α) (i : Nat) (x d : α) (h : i < l.length) :
    (l.set i x).getD i d = x := by
  simp [List.getD_eq_getElem?_getD, List.getElem?_set_self h]

theorem getD_set_ne {α : Type} (l : List α) (i j : Nat) (x d : α) (h : i ≠ j) :
    (l.set i x).getD j d = l.getD j d := by
  simp [List.getD_eq_getElem?_getD, List.getElem?_set_ne h]

theorem getD_replicate_default {α : Type} (n k : Nat) (d : α) :
    (List.replicate n d).getD k d = d := by
  rw [List.getD_eq_getElem?_getD, List.getElem?_replicate]
  by_cases h : k < n <;> simp [h]

/-! ### Wheel well-formedness and the slot invariant -/

namespace TimeWheel

theorem wf_new (W : Nat) : (new W).WF ↔ 1 ≤ W := by
  unfold WF new
  simp

theorem wf_schedule (w : TimeWheel) (e : SpikeEvent) (h : w.WF) : (w.schedule e).WF := by
  obtain ⟨hlen, hpos⟩ := h
  exact ⟨by simp [schedule, hlen], hpos⟩

theorem wf_next (w : TimeWheel) (h : w.WF) : (w.next).2.WF := by
  obtain ⟨hlen, hpos⟩ := h
  exact ⟨by simp [next, hlen], hpos⟩

theorem slotInv_schedule (w : TimeWheel) (e : SpikeEvent) (hw : w.WF) (h : w.SlotInv) :
    (w.schedule e).SlotInv := by
  intro k ev hev
  obtain ⟨hlen, hpos⟩ := hw
  have hslot : e.time % w.wheel_size < w.buckets.length := by
    rw [hlen]; exact Nat.mod_lt _ hpos
  by_cases hk : e.time % w.wheel_size = k
  · subst hk
    rw [show (w.schedule e).buckets = w.buckets.set (e.time % w.wheel_size)
          (w.buckets.getD (e.time % w.wheel_size) [] ++ [e]) from rfl] at hev
    rw [getD_set_self _ _ _ _ hslot] at hev
    rcases List.mem_append.1 hev with hev | hev
    · exact h _ ev hev
    · rcases List.mem_singleton.1 hev with rfl
      rfl
  · rw [show (w.schedule e).buckets = w.buckets.set (e.time % w.wheel_size)
          (w.buckets.getD (e.time % w.wheel_size) [] ++ [e]) from rfl] at hev
    rw [getD_set_ne _ _ _ _ _ hk] at hev
    exact h _ ev hev

theorem slotInv_next (w : TimeWheel) (h : w.SlotInv) : (w.next).2.SlotInv := by
  intro k ev hev
  by_cases hk : w.current_time % w.wheel_size = k
  · subst hk
    rw [show (w.next).2.buckets = w.buckets.set (w.current_time % w.wheel_size) [] from rfl]
      at hev
    by_cases hin : w.current_time % w.wheel_size < w.buckets.length
    · rw [getD_set_self _ _ _ _ hin] at hev
      exact absurd hev (List.not_mem_nil ev)
    · rw [List.set_eq_of_length_le (by omega)] at hev
      exact h _ ev hev
  · rw [show (w.next).2.buckets = w.buckets.set (w.current_time % w.wheel_size) [] from rfl,
      getD_set_ne _ _ _ _ _ hk] at hev
    exact h _ ev hev

theorem slotInv_new (W : Nat) : (new W).SlotInv := by
  intro k e he
  rw [show (new W).buckets = List.replicate W [] from rfl, getD_replicate_default] at he
  exact absurd he (List.not_mem_nil e)

end TimeWheel

theorem execWheelOps_wf_slotInv (ops : List WheelOp) :
    ∀ w : TimeWheel, w.WF → w.SlotInv →
      (execWheelOps w ops).WF ∧ (execWheelOps w ops).SlotInv := by
  induction ops with
  | nil => intro w hw hs; exact ⟨hw, hs⟩
  | cons op rest ih =>
    intro w hw hs
    cases op with
    | schedule e =>
      exact ih _ (TimeWheel.wf_schedule w e hw) (TimeWheel.slotInv_schedule w e hw hs)
    | next =>
      exact ih _ (TimeWheel.wf_next w hw) (TimeWheel.slotInv_next w hs)

/-- Under well-formedness, the panic-explicit `scheduleOpt` agrees with the
total model and cannot fail. -/
theorem scheduleOpt_eq_some (w : TimeWheel) (e : SpikeEvent) (h : w.WF) :
    w.scheduleOpt e = some (w.schedule e) := by
  obtain ⟨hlen, hpos⟩ := h
  have hz : ¬ w.wheel_size = 0 := by omega
  have hslot : e.time % w.wheel_size < w.buckets.length := by
    rw [hlen]; exact Nat.mod_lt _ hpos
  simp [TimeWheel.scheduleOpt, TimeWheel.schedule, hz, hslot]

/-- Under well-formedness, the panic-explicit `nextOpt` agrees with the total
model and cannot fail. -/
theorem nextOpt_eq_some (w : TimeWheel) (h : w.WF) :
    w.nextOpt = some w.next := by
  obtain ⟨hlen, hpos⟩ := h
  have hz : ¬ w.wheel_size = 0 := by omega
  have hslot : w.current_time % w.wheel_size < w.buckets.length := by
    rw [hlen]; exact Nat.mod_lt _ hpos
  simp [TimeWheel.nextOpt, TimeWheel.next, hz, hslot]

theorem execWheelOpsOpt_isSome (ops : List WheelOp) :
    ∀ w : TimeWheel, w.WF → (execWheelOpsOpt w ops).isSome := by
  induction ops with
  | nil => intro w _; rfl
  | cons op rest ih =>
    intro w hw
    cases op with
    | schedule e =>
      rw [show execWheelOpsOpt w (WheelOp.schedule e :: rest) =
            match w.scheduleOpt e with
            | none => none
            | some w' => execWheelOpsOpt w' rest from rfl,
        scheduleOpt_eq_some w e hw]
      exact ih _ (TimeWheel.wf_schedule w e hw)
    | next =>
      rw [show execWheelOpsOpt w (WheelOp.next :: rest) =
            match w.nextOpt with
            | none => none
            | some (_, w') => execWheelOpsOpt w' rest from rfl,
        nextOpt_eq_some w hw]
      exact ih _ (TimeWheel.wf_next w hw)

/-- Reading a trace through `resizeTo` is reading the original with default 0. -/
theorem resizeTo_getD (l : List Int) (need i : Nat) :
    (resizeTo l need).getD i 0 = l.getD i 0 := by
  unfold resizeTo
  split
  · rw [List.getD_eq_getElem?_getD, List.getD_eq_getElem?_getD, List.getElem?_append]
    split
    · rfl
    · rw [List.getElem?_replicate]
      have : l[i]? = none := by
        rw [List.getElem?_eq_none_iff]
        omega
      rw [this]
      split <;> rfl
  · rfl

/-! ### Delivery-loop lemmas -/

theorem deliverTargets_of_aborted (b : StepBudgets) (w : Int) (dt : Nat)
    (tgts : List Nat) (st : DeliverSt) (h : st.aborted = true) :
    deliverTargets b w dt tgts st = st := by
  cases tgts with
  | nil => rfl
  | cons tgt rest => simp [deliverTargets, h]

theorem deliverEdges_of_aborted (b : StepBudgets) (edges : List HyperEdge)
    (ev : SpikeEvent) (eids : List Nat) (st : DeliverSt) (h : st.aborted = true) :
    deliverEdges b edges ev eids st = st := by
  cases eids with
  | nil => rfl
  | cons eid rest => simp [deliverEdges, h]

theorem deliverEvents_of_aborted (b : StepBudgets) (adj : List (List Nat))
    (edges : List HyperEdge) (evs : List SpikeEvent) (st : DeliverSt)
    (h : st.aborted = true) :
    deliverEvents b adj edges evs st = st := by
  cases evs with
  | nil => rfl
  | cons ev rest => simp [deliverEvents, h]

theorem deliverTargets_spike0 (mev : Option Nat) (w : Int) (dt : Nat)
    (tgts : List Nat) :
    ∀ st : DeliverSt, st.aborted = false →
      deliverTargets ⟨mev, some 0⟩ w dt tgts st =
        { st with neurons := (injectOnlyTargets w dt tgts st.neurons).1,
                  aborted := (injectOnlyTargets w dt tgts st.neurons).2 } := by
  induction tgts with
  | nil =>
    intro st h
    cases st
    simp_all [deliverTargets, injectOnlyTargets]
  | cons tgt rest ih =>
    intro st h
    by_cases htgt : tgt < st.neurons.length
    · simp only [deliverTargets, injectOnlyTargets, h, htgt, Bool.false_eq_true, if_false,
        if_true, ite_true, ite_false]
      split
      · simp [budgetReached]
      · rw [ih _ (by simp [h])]
    · simp only [deliverTargets, injectOnlyTargets, h, htgt, Bool.false_eq_true, if_false,
        if_true, ite_true, ite_false]
      rw [ih _ h]

theorem deliverEdges_spike0 (edges : List HyperEdge) (ev : SpikeEvent)
    (eids : List Nat) :
    ∀ st : DeliverSt, st.aborted = false →
      ∃ v, deliverEdges ⟨none, some 0⟩ edges ev eids st =
        { st with neurons := (injectOnlyEdges edges ev eids st.neurons).1,
                  aborted := (injectOnlyEdges edges ev eids st.neurons).2,
                  edge_visits := v } := by
  induction eids with
  | nil =>
    intro st h
    refine ⟨st.edge_visits, ?_⟩
    cases st
    simp_all [deliverEdges, injectOnlyEdges]
  | cons eid rest ih =>
    intro st h
    by_cases heid : eid < edges.length
    · rw [deliverEdges, if_neg (by simp [h]), if_neg (by simp [budgetReached]), if_pos heid]
      simp only []
      rw [deliverTargets_spike0 _ _ _ _ _ (by simp [h])]
      rw [injectOnlyEdges, if_pos heid]
      simp only []
      rcases hs : (injectOnlyTargets (edges.getD eid dummyEdge).weight
          (sadd64 ev.time (edges.getD eid dummyEdge).delay)
          (edges.getD eid dummyEdge).targets st.neurons) with ⟨ns1, stop⟩
      cases stop with
      | true =>
        refine ⟨st.edge_visits + 1, ?_⟩
        rw [deliverEdges_of_aborted _ _ _ _ _ (by simp [hs])]
        simp [hs]
      | false =>
        rcases ih ⟨ns1, st.queue, st.edge_visits + 1, st.spikes_scheduled, false⟩ rfl
          with ⟨v, hv⟩
        refine ⟨v, ?_⟩
        simp only [hs]
        rw [hv]
        simp
    · rw [deliverEdges, if_neg (by simp [h]), if_neg (by simp [budgetReached]), if_neg heid]
      rw [injectOnlyEdges, if_neg heid]
      rcases ih { st with edge_visits := st.edge_visits + 1 } (by simp [h]) with ⟨v, hv⟩
      exact ⟨v, by simp [hv]⟩

theorem deliverEvents_spike0 (adj : List (List Nat)) (edges : List HyperEdge)
    (evs : List SpikeEvent) :
    ∀ st : DeliverSt, st.aborted = false →
      ∃ v, deliverEvents ⟨none, some 0⟩ adj edges evs st =
        { st with neurons := (injectOnlyEvents adj edges evs st.neurons).1,
                  aborted := (injectOnlyEvents adj edges evs st.neurons).2,
                  edge_visits := v } := by
  induction evs with
  | nil =>
    intro st h
    refine ⟨st.edge_visits, ?_⟩
    cases st
    simp_all [deliverEvents, injectOnlyEvents]
  | cons ev rest ih =>
    intro st h
    rcases hrow : adj[ev.neuron_id]? with _ | eids
    · rw [deliverEvents, if_neg (by simp [h]), hrow]
      rw [injectOnlyEvents, hrow]
      rcases ih st h with ⟨v, hv⟩
      exact ⟨v, by simp [hv]⟩
    · rw [deliverEvents, if_neg (by simp [h]), hrow]
      simp only []
      rcases deliverEdges_spike0 edges ev eids st h with ⟨v1, hv1⟩
      rw [hv1]
      rw [injectOnlyEvents, hrow]
      rcases hs : injectOnlyEdges edges ev eids st.neurons with ⟨ns1, stop⟩
      cases stop with
      | true =>
        refine ⟨v1, ?_⟩
        rw [deliverEvents_of_aborted _ _ _ _ _ (by simp [hs])]
        simp [hs]
      | false =>
        rcases ih ⟨ns1, st.queue, v1, st.spikes_scheduled, false⟩ rfl with ⟨v2, hv2⟩
        refine ⟨v2, ?_⟩
        simp only [hs]
        rw [hv2]
        simp

/-- With the edge-visit budget at zero, the edge loop changes nothing except
possibly the abort flag. -/
theorem deliverEdges_edge0_frame (b2 : Option Nat) (edges : List HyperEdge)
    (ev : SpikeEvent) (eids : List Nat) (st : DeliverSt) :
    (deliverEdges ⟨some 0, b2⟩ edges ev eids st).neurons = st.neurons ∧
    (deliverEdges ⟨some 0, b2⟩ edges ev eids st).queue = st.queue ∧
    (deliverEdges ⟨some 0, b2⟩ edges ev eids st).edge_visits = st.edge_visits ∧
    (deliverEdges ⟨some 0, b2⟩ edges ev eids st).spikes_scheduled = st.spikes_scheduled := by
  cases eids with
  | nil => exact ⟨rfl, rfl, rfl, rfl⟩
  | cons eid rest =>
    by_cases h : st.aborted
    · simp [deliverEdges, h]
    · simp [deliverEdges, h, budgetReached]

/-- With the edge-visit budget at zero, the event loop changes nothing
except possibly the abort flag: no injection, no visit, no scheduling. -/
theorem deliverEvents_edge0_frame (b2 : Option Nat) (adj : List (List Nat))
    (edges : List HyperEdge) (evs : List SpikeEvent) :
    ∀ st : DeliverSt,
      (deliverEvents ⟨some 0, b2⟩ adj edges evs st).neurons = st.neurons ∧
      (deliverEvents ⟨some 0, b2⟩ adj edges evs st).queue = st.queue ∧
      (deliverEvents ⟨some 0, b2⟩ adj edges evs st).edge_visits = st.edge_visits ∧
      (deliverEvents ⟨some 0, b2⟩ adj edges evs st).spikes_scheduled = st.spikes_scheduled := by
  induction evs with
  | nil => intro st; exact ⟨rfl, rfl, rfl, rfl⟩
  | cons ev rest ih =>
    intro st
    by_cases h : st.aborted
    · simp [deliverEvents, h]
    · rcases hrow : adj[ev.neuron_id]? with _ | eids
      · simpa [deliverEvents, h, hrow] using ih st
      · have hE := deliverEdges_edge0_frame b2 edges ev eids st
        have hR := ih (deliverEdges ⟨some 0, b2⟩ edges ev eids st)
        simp only [deliverEvents, h, hrow, Bool.false_eq_true, if_false]
        constructor
        · rw [hR.1, hE.1]
        constructor
        · rw [hR.2.1, hE.2.1]
        constructor
        · rw [hR.2.2.1, hE.2.2.1]
        · rw [hR.2.2.2, hE.2.2.2]

/-! ### Claim C8 — `max_edge_visits = 0` -/

/-- C8: with `max_edge_visits = Some 0` (and any spike budget), `step_once`
pops the current slot, returns exactly the popped events, and performs no
deliveries: neurons are untouched, no bucket gains an event (the wheel only
loses the popped slot), and both work counters stay at zero. -/
theorem C8_edge_budget_zero_no_delivery (rt : SnnRuntimePlus) (b2 : Option Nat)
    (hwf : rt.inner.queue.WF) :
    (rt.step_once_with_budgets ⟨some 0, b2⟩).1 =
      rt.inner.queue.buckets.getD
        (rt.inner.queue.current_time % rt.inner.queue.wheel_size) [] ∧
    (rt.step_once_with_budgets ⟨some 0, b2⟩).2.inner.queue =
      { buckets := rt.inner.queue.buckets.set
          (rt.inner.queue.current_time % rt.inner.queue.wheel_size) [],
        current_time := sadd64 rt.inner.queue.current_time 1,
        wheel_size := rt.inner.queue.wheel_size } ∧
    (rt.step_once_with_budgets ⟨some 0, b2⟩).2.inner.neurons = rt.inner.neurons ∧
    (rt.step_once_with_budgets ⟨some 0, b2⟩).2.inner.edges = rt.inner.edges ∧
    (rt.step_once_with_budgets ⟨some 0, b2⟩).2.source_to_edges = rt.source_to_edges ∧
    (deliverEvents ⟨some 0, b2⟩ rt.source_to_edges rt.inner.edges
      (rt.inner.queue.buckets.getD
        (rt.inner.queue.current_time % rt.inner.queue.wheel_size) [])
      ⟨rt.inner.neurons, (rt.inner.queue.next).2, 0, 0, false⟩).edge_visits = 0 ∧
    (deliverEvents ⟨some 0, b2⟩ rt.source_to_edges rt.inner.edges
      (rt.inner.queue.buckets.getD
        (rt.inner.queue.current_time % rt.inner.queue.wheel_size) [])
      ⟨rt.inner.neurons, (rt.inner.queue.next).2, 0, 0, false⟩).spikes_scheduled = 0 := by
  have hF := deliverEvents_edge0_frame b2 rt.source_to_edges rt.inner.edges
    (rt.inner.queue.buckets.getD
      (rt.inner.queue.current_time % rt.inner.queue.wheel_size) [])
    ⟨rt.inner.neurons, (rt.inner.queue.next).2, 0, 0, false⟩
  refine ⟨rfl, ?_, ?_, rfl, rfl, ?_, ?_⟩
  · exact hF.2.1
  · exact hF.1
  · exact hF.2.2.1
  · exact hF.2.2.2

/-- C8 witness: the concrete three-neuron runtime. -/
theorem C8_edge_budget_zero_witness :
    twoTargetRuntime.inner.queue.WF ∧
    ((twoTargetRuntime.step_once_with_budgets ⟨some 0, none⟩).2.inner.neurons =
      twoTargetRuntime.inner.neurons ∧
     (twoTargetRuntime.step_once_with_budgets ⟨some 0, none⟩).1 = [⟨0, 0⟩]) :=
  ⟨by decide,
   (C8_edge_budget_zero_no_delivery twoTargetRuntime none (by decide)).2.2.1,
   ((C8_edge_budget_zero_no_delivery twoTargetRuntime none (by decide)).1).trans (by decide)⟩

/-! ### Claim C1 — `max_spikes_scheduled = 0` (corrected) -/

/-- C1 counterexample: with `max_spikes_scheduled = 0`, `step_once` does NOT
perform all the injections of delivery: on `twoTargetRuntime` (one edge
`{0} → {1, 2}` where target 1 fires and target 2 does not), the first
firing trips the zero budget and aborts delivery entirely, so target 2 is
never injected (its membrane stays 0), while an unbudgeted step injects it
(membrane becomes the edge weight 65536). -/
theorem C1_counterexample_injection_skipped :
    ((twoTargetRuntime.step_once_with_budgets ⟨none, some 0⟩).2.inner.neurons.getD 2
      dummyNeuron).membrane = 0 ∧
    ((twoTargetRuntime.step_once_with_budgets ⟨none, none⟩).2.inner.neurons.getD 2
      dummyNeuron).membrane = 65536 := by
  refine ⟨?_, ?_⟩ <;> decide

/-- C1 (amended): with `max_spikes_scheduled = Some 0`, `step_once` pops the
current slot and returns exactly the popped events, performs the injections
of delivery in order only up to and including the first injection that fires
a target (the zero budget then aborts delivery entirely), and never
schedules any induced spike into the time wheel: the wheel only loses the
popped slot and the spike counter stays at zero. -/
theorem C1_spike_budget_zero_no_scheduling (rt : SnnRuntimePlus)
    (hwf : rt.inner.queue.WF) :
    (rt.step_once_with_budgets ⟨none, some 0⟩).1 =
      rt.inner.queue.buckets.getD
        (rt.inner.queue.current_time % rt.inner.queue.wheel_size) [] ∧
    (rt.step_once_with_budgets ⟨none, some 0⟩).2.inner.queue =
      { buckets := rt.inner.queue.buckets.set
          (rt.inner.queue.current_time % rt.inner.queue.wheel_size) [],
        current_time := sadd64 rt.inner.queue.current_time 1,
        wheel_size := rt.inner.queue.wheel_size } ∧
    (rt.step_once_with_budgets ⟨none, some 0⟩).2.inner.neurons =
      (injectOnlyEvents rt.source_to_edges rt.inner.edges
        (rt.inner.queue.buckets.getD
          (rt.inner.queue.current_time % rt.inner.queue.wheel_size) [])
        rt.inner.neurons).1 ∧
    (rt.step_once_with_budgets ⟨none, some 0⟩).2.inner.edges = rt.inner.edges ∧
    (rt.step_once_with_budgets ⟨none, some 0⟩).2.source_to_edges = rt.source_to_edges ∧
    (deliverEvents ⟨none, some 0⟩ rt.source_to_edges rt.inner.edges
      (rt.inner.queue.buckets.getD
        (rt.inner.queue.current_time % rt.inner.queue.wheel_size) [])
      ⟨rt.inner.neurons, (rt.inner.queue.next).2, 0, 0, false⟩).spikes_scheduled = 0 := by
  obtain ⟨v, hv⟩ := deliverEvents_spike0 rt.source_to_edges rt.inner.edges
    (rt.inner.queue.buckets.getD
      (rt.inner.queue.current_time % rt.inner.queue.wheel_size) [])
    ⟨rt.inner.neurons, (rt.inner.queue.next).2, 0, 0, false⟩ rfl
  refine ⟨rfl, ?_, ?_, rfl, rfl, ?_⟩
  · show (deliverEvents ⟨none, some 0⟩ rt.source_to_edges rt.inner.edges
      (rt.inner.queue.buckets.getD
        (rt.inner.queue.current_time % rt.inner.queue.wheel_size) [])
      ⟨rt.inner.neurons, (rt.inner.queue.next).2, 0, 0, false⟩).queue = _
    rw [hv]
    rfl
  · show (deliverEvents ⟨none, some 0⟩ rt.source_to_edges rt.inner.edges
      (rt.inner.queue.buckets.getD
        (rt.inner.queue.current_time % rt.inner.queue.wheel_size) [])
      ⟨rt.inner.neurons, (rt.inner.queue.next).2, 0, 0, false⟩).neurons = _
    rw [hv]
  · rw [hv]

/-- C1 witness: the concrete three-neuron runtime. -/
theorem C1_spike_budget_zero_witness :
    twoTargetRuntime.inner.queue.WF ∧
    ((twoTargetRuntime.step_once_with_budgets ⟨none, some 0⟩).2.inner.queue =
      { buckets := [[]], current_time := 1, wheel_size := 1 } ∧
     (twoTargetRuntime.step_once_with_budgets ⟨none, some 0⟩).1 = [⟨0, 0⟩]) :=
  ⟨by decide,
   ((C1_spike_budget_zero_no_scheduling twoTargetRuntime (by decide)).2.1).trans (by decide),
   ((C1_spike_budget_zero_no_scheduling twoTargetRuntime (by decide)).1).trans (by decide)⟩

/-! ### Claim C5 — `Neuron::inject` -/

/-- C5: `inject` returns `false` and leaves the neuron unchanged during
refractory (`time < refractory_until`); otherwise it saturating-adds the
input into the membrane, and fires with the membrane reset to 0 exactly when
the updated membrane reaches the threshold, else returns `false` with the
(possibly negative, unclamped) updated membrane. -/
theorem C5_inject_refractory_and_fire (n : Neuron) (input : Int) (time : Nat) :
    (time < n.refractory_until → n.inject input time = (n, false)) ∧
    (¬ time < n.refractory_until →
      (n.threshold ≤ sat32 (n.membrane + input) →
        n.inject input time = ({ n with membrane := 0 }, true)) ∧
      (sat32 (n.membrane + input) < n.threshold →
        n.inject input time = ({ n with membrane := sat32 (n.membrane + input) }, false))) := by
  refine ⟨fun h => ?_, fun h => ⟨fun hf => ?_, fun hnf => ?_⟩⟩
  · simp [Neuron.inject, h]
  · simp [Neuron.inject, h, hf]
  · have hx : ¬ n.threshold ≤ sat32 (n.membrane + input) := by omega
    simp [Neuron.inject, h, hx]

/-- C5 witness: a concrete refractory miss and a concrete fire. -/
theorem C5_inject_witness :
    ((2 : Nat) < (5 : Nat) ∧
      Neuron.inject ⟨7, 3, 4, 5⟩ 10 2 = (⟨7, 3, 4, 5⟩, false)) ∧
    (¬ (6 : Nat) < (5 : Nat) ∧ (4 : Int) ≤ sat32 (3 + 10) ∧
      Neuron.inject ⟨7, 3, 4, 5⟩ 10 6 = (⟨7, 0, 4, 5⟩, true)) :=
  ⟨⟨by decide, (C5_inject_refractory_and_fire ⟨7, 3, 4, 5⟩ 10 2).1 (by decide)⟩,
   ⟨by decide, by decide,
    ((C5_inject_refractory_and_fire ⟨7, 3, 4, 5⟩ 10 6).2 (by decide)).1 (by decide)⟩⟩

/-! ### Claim C4 — `QuantizedStdp::apply_edge` -/

/-- C4: `apply_edge` writes back exactly
`clamp(sat_sub(sat_add(w, a_plus * pre_trace[pre]), a_minus * post_trace[post]), w_min, w_max)`
(all arithmetic Q16.16, clamp realised as the two sequential branches, i.e.
`min w_max (max w_min x)`), and under `w_min ≤ w_max` the written-back
weight lies in `[w_min, w_max]`. -/
theorem C4_apply_edge_clamp (s : QuantizedStdp) (pre post : Nat) (w : Int) :
    (s.apply_edge pre post w).2 =
      min s.w_max (max s.w_min
        (fx_sub_sat (fx_add_sat w (fx_mul s.a_plus (s.pre_trace.getD pre 0)))
          (fx_mul s.a_minus (s.post_trace.getD post 0)))) ∧
    (s.w_min ≤ s.w_max →
      s.w_min ≤ (s.apply_edge pre post w).2 ∧ (s.apply_edge pre post w).2 ≤ s.w_max) := by
  have hform : (s.apply_edge pre post w).2 =
      min s.w_max (max s.w_min
        (fx_sub_sat (fx_add_sat w (fx_mul s.a_plus (s.pre_trace.getD pre 0)))
          (fx_mul s.a_minus (s.post_trace.getD post 0)))) := by
    unfold QuantizedStdp.apply_edge QuantizedStdp.ensure_neuron
    simp only [resizeTo_getD]
    split <;> split <;> omega
  refine ⟨hform, fun hle => ?_⟩
  rw [hform]
  omega

/-- C4 witness: concrete rule state with `w_min ≤ w_max`. -/
theorem C4_apply_edge_witness :
    (QuantizedStdp.apply_edge ⟨655, 786, 62914, 62914, 0, 65536, [65536], []⟩ 0 1 32768).2 =
      min (65536 : Int) (max (0 : Int)
        (fx_sub_sat (fx_add_sat 32768 (fx_mul 655 65536)) (fx_mul 786 0))) ∧
    ((0 : Int) ≤ (65536 : Int) ∧
      (0 : Int) ≤ (QuantizedStdp.apply_edge ⟨655, 786, 62914, 62914, 0, 65536, [65536], []⟩ 0 1 32768).2 ∧
      (QuantizedStdp.apply_edge ⟨655, 786, 62914, 62914, 0, 65536, [65536], []⟩ 0 1 32768).2 ≤ 65536) :=
  ⟨(C4_apply_edge_clamp ⟨655, 786, 62914, 62914, 0, 65536, [65536], []⟩ 0 1 32768).1,
   by decide,
   (C4_apply_edge_clamp ⟨655, 786, 62914, 62914, 0, 65536, [65536], []⟩ 0 1 32768).2 (by decide)⟩

/-! ### Claim C3 — wheel failure model (corrected) -/

/-- C3 counterexample: constructing a wheel with `wheel_size = 0` does NOT
fail — `TimeWheel::new(0)` succeeds and returns a wheel with zero buckets —
while `schedule` and `next` on that successfully constructed wheel fail at
runtime (`% 0` panics, modelled as `none`). -/
theorem C3_counterexample_new_zero_succeeds :
    TimeWheel.new 0 = { buckets := [], current_time := 0, wheel_size := 0 } ∧
    TimeWheel.scheduleOpt (TimeWheel.new 0) ⟨0, 0⟩ = none ∧
    TimeWheel.nextOpt (TimeWheel.new 0) = none := by
  refine ⟨rfl, ?_, ?_⟩ <;> decide

/-- C3 (amended): `TimeWheel::new` never fails and performs no validation —
`new(0)` succeeds with zero buckets and `schedule`/`next` then panic at
runtime. For every wheel constructed with `wheel_size ≥ 1`, `schedule` and
`next` never fail at runtime, for any event times and any sequence of
calls. -/
theorem C3_wheel_no_runtime_failure (W : Nat) (h : 1 ≤ W) (ops : List WheelOp) :
    (execWheelOpsOpt (TimeWheel.new W) ops).isSome = true :=
  execWheelOpsOpt_isSome ops _ ((TimeWheel.wf_new W).mpr h)

/-- C3 witness: a concrete wheel and call sequence that never fails. -/
theorem C3_wheel_witness :
    1 ≤ 2 ∧
    (execWheelOpsOpt (TimeWheel.new 2)
      [WheelOp.schedule ⟨0, 3⟩, WheelOp.next, WheelOp.schedule ⟨1, 0⟩,
       WheelOp.next, WheelOp.next]).isSome = true :=
  ⟨by decide,
   C3_wheel_no_runtime_failure 2 (by decide)
     [WheelOp.schedule ⟨0, 3⟩, WheelOp.next, WheelOp.schedule ⟨1, 0⟩,
      WheelOp.next, WheelOp.next]⟩

/-! ### Claim C6 — slot invariant -/

/-- C6: for every wheel built with `wheel_size = W ≥ 1` and every sequence
of `schedule` and `next` calls, every event residing in bucket `k` satisfies
`e.time mod W = k`. -/
theorem C6_slot_invariant (W : Nat) (h : 1 ≤ W) (ops : List WheelOp) :
    (execWheelOps (TimeWheel.new W) ops).SlotInv :=
  (execWheelOps_wf_slotInv ops _ ((TimeWheel.wf_new W).mpr h) (TimeWheel.slotInv_new W)).2

/-- C6 witness: a concrete wheel and call sequence. -/
theorem C6_slot_invariant_witness :
    1 ≤ 3 ∧
    (execWheelOps (TimeWheel.new 3)
      [WheelOp.schedule ⟨0, 5⟩, WheelOp.next, WheelOp.schedule ⟨1, 7⟩,
       WheelOp.schedule ⟨2, 3⟩]).SlotInv :=
  ⟨by decide,
   C6_slot_invariant 3 (by decide)
     [WheelOp.schedule ⟨0, 5⟩, WheelOp.next, WheelOp.schedule ⟨1, 7⟩,
      WheelOp.schedule ⟨2, 3⟩]⟩



theorem set_replicate_same {α : Type} (n i : Nat) (d : α) :
    (List.replicate n d).set i d = List.replicate n d := by
  apply List.ext_getElem?
  intro j
  rw [List.getElem?_set]
  split
  · split
    · rw [List.getElem?_replicate]
      rename_i hij hin
      rw [List.length_replicate] at hin
      simp [hij ▸ hin]
    · rename_i hij hin
      rw [eq_comm, List.getElem?_eq_none_iff]
      omega
  · rfl

theorem set_nil_of_getD_nil {α : Type} (l : List (List α)) (i : Nat)
    (h : l.getD i [] = []) : l.set i [] = l := by
  apply List.ext_getElem?
  intro j
  rw [List.getElem?_set]
  split
  · split
    · rename_i hij hin
      subst hij
      rw [List.getD_eq_getElem?_getD] at h
      rcases hl : l[i]? with _ | b
      · rw [List.getElem?_eq_none_iff] at hl
        omega
      · rw [hl] at h
        simp at h
        simp [hl, h]
    · rename_i hij hin
      rw [eq_comm, List.getElem?_eq_none_iff]
      omega
  · rfl

theorem mod_shift_ne (t m W : Nat) (h1 : 0 < m) (h2 : m < W) :
    (t + m) % W ≠ t % W := by
  intro h
  have hmod : t ≡ t + m [MOD W] := h.symm
  have hdvd : W ∣ (t + m - t) := (Nat.modEq_iff_dvd' (by omega)).mp hmod
  have : W ∣ m := by simpa using hdvd
  have := Nat.le_of_dvd h1 this
  omega

/-- A step on a runtime whose current slot is empty only advances time. -/
theorem step_once_empty_slot (rt : SnnRuntimePlus)
    (h : rt.inner.queue.buckets.getD
      (rt.inner.queue.current_time % rt.inner.queue.wheel_size) [] = []) :
    rt.step_once =
      ([], { inner := { neurons := rt.inner.neurons, edges := rt.inner.edges,
                        queue := { buckets := rt.inner.queue.buckets,
                                   current_time := sadd64 rt.inner.queue.current_time 1,
                                   wheel_size := rt.inner.queue.wheel_size } },
             source_to_edges := rt.source_to_edges }) := by
  unfold SnnRuntimePlus.step_once SnnRuntimePlus.step_once_with_budgets StepBudgets.defaults
    TimeWheel.next
  simp only [h]
  rw [set_nil_of_getD_nil _ _ h]
  rfl

/-- The state of the delay-0 aliasing scenario after its first step: the
induced spike `{1, t}` sits in bucket `t mod W`, time is at `c`. -/
def aliasAfter (W t c : Nat) : SnnRuntimePlus :=
  { inner :=
      { neurons := [⟨0, 0, 65536, 0⟩, ⟨1, 0, 1, 0⟩],
        edges := [⟨0, [0], [1], 1, 0⟩],
        queue := { buckets := (List.replicate W []).set (t % W) [⟨1, t⟩],
                   current_time := c, wheel_size := W } },
    source_to_edges := [[0], []] }

theorem sadd64_eq (a b : Nat) (h : a + b ≤ U64_MAX) : sadd64 a b = a + b := by
  unfold sadd64
  omega

theorem aliasRuntime_step (W t : Nat) (hW : 1 ≤ W) (ht : t + 1 ≤ U64_MAX) :
    (aliasRuntime W t).step_once = ([⟨0, t⟩], aliasAfter W t (t + 1)) := by
  have hlt : t % W < (List.replicate W ([] : List SpikeEvent)).length := by
    rw [List.length_replicate]
    exact Nat.mod_lt _ (by omega)
  have hpop : ((List.replicate W ([] : List SpikeEvent)).set (t % W) [⟨0, t⟩]).getD (t % W) []
      = [⟨0, t⟩] := getD_set_self _ _ _ _ hlt
  have hclear : (((List.replicate W ([] : List SpikeEvent)).set (t % W) [⟨0, t⟩]).set (t % W) [])
      = List.replicate W [] := by
    rw [List.set_set, set_replicate_same]
  have hs0 : sadd64 t 0 = t := sadd64_eq t 0 (by omega)
  have hs1 : sadd64 t 1 = t + 1 := sadd64_eq t 1 ht
  unfold aliasRuntime aliasAfter SnnRuntimePlus.step_once SnnRuntimePlus.step_once_with_budgets
    StepBudgets.defaults TimeWheel.next
  simp only [hpop, hclear, hs1]
  rw [deliverEvents, if_neg (by simp)]
  simp only [List.getElem?_cons_zero]
  rw [deliverEdges, if_neg (by simp), if_neg (by simp [budgetReached]), if_pos (by simp)]
  simp only [show (([⟨0, [0], [1], 1, 0⟩] : List HyperEdge).getD 0 dummyEdge) =
    (⟨0, [0], [1], 1, 0⟩ : HyperEdge) from rfl]
  rw [deliverTargets, if_neg (by simp), if_pos (by simp)]
  simp only [hs0]
  rw [show (([⟨0, 0, 65536, 0⟩, ⟨1, 0, 1, 0⟩] : List Neuron).getD 1 dummyNeuron) =
    (⟨1, 0, 1, 0⟩ : Neuron) from rfl]
  rw [show (Neuron.inject ⟨1, 0, 1, 0⟩ 1 t) = (⟨1, 0, 1, 0⟩, true) from by
    unfold Neuron.inject
    rw [if_neg (by exact Nat.not_lt_zero t), if_pos (by decide)]]
  rw [if_pos (show (((⟨1, 0, 1, 0⟩ : Neuron), true).2 = true) from rfl),
    if_neg (show ¬ (budgetReached none 0 = true) from by simp [budgetReached])]
  rw [deliverTargets, deliverEdges, deliverEvents]
  unfold TimeWheel.schedule
  simp only []
  rw [show ((List.replicate W ([] : List SpikeEvent)).getD (t % W) []) = [] from
    getD_replicate_default _ _ _]
  rfl

theorem aliasAfter_step_quiet (W t c : Nat) (hW : 1 ≤ W) (hc : c + 1 ≤ U64_MAX)
    (hne : c % W ≠ t % W) :
    (aliasAfter W t c).step_once = ([], aliasAfter W t (c + 1)) := by
  have hq : ((List.replicate W ([] : List SpikeEvent)).set (t % W) [⟨1, t⟩]).getD (c % W) []
      = [] := by
    rw [getD_set_ne _ _ _ _ _ (fun hx => hne hx.symm), getD_replicate_default]
  rw [step_once_empty_slot _ (by exact hq)]
  simp only [aliasAfter]
  rw [sadd64_eq c 1 hc]

theorem stepN_alias (W t : Nat) (hW : 1 ≤ W) (hsat : t + W ≤ U64_MAX) :
    ∀ k j, j + k ≤ W - 1 →
      stepN (aliasAfter W t (t + 1 + j)) k = aliasAfter W t (t + 1 + j + k) := by
  intro k
  induction k with
  | zero => intro j _; rfl
  | succ k ih =>
    intro j hj
    have hne : (t + (1 + j)) % W ≠ t % W := mod_shift_ne t (1 + j) W (by omega) (by omega)
    have hstep := aliasAfter_step_quiet W t (t + 1 + j) hW (by omega)
      (by rw [show t + 1 + j = t + (1 + j) from by omega]; exact hne)
    show stepN ((aliasAfter W t (t + 1 + j)).step_once).2 k = _
    rw [hstep]
    have := ih (j + 1) (by omega)
    rw [show t + 1 + j + 1 = t + 1 + (j + 1) from by omega, this,
      show t + 1 + (j + 1) + k = t + 1 + j + (k + 1) from by omega]

/-- C7: when an edge has delay 0 and its target fires while delivering a
spike popped at tick `t`, the induced spike `{1, t}` is placed into bucket
`t mod W` after `current_time` has already advanced to `t + 1`; the pops of
the following `W - 1` steps do not return it, and it is next returned by the
pop of the step whose `current_time` equals `t + W` — exactly one full wheel
revolution later. -/
theorem C7_delay_zero_spike_one_revolution_late (W t : Nat) (hW : 1 ≤ W)
    (hsat : t + W ≤ U64_MAX) :
    ((aliasRuntime W t).step_once).1 = [⟨0, t⟩] ∧
    ((aliasRuntime W t).step_once).2.inner.queue.current_time = t + 1 ∧
    ((aliasRuntime W t).step_once).2.inner.queue.buckets.getD (t % W) [] = [⟨1, t⟩] ∧
    (∀ k, k < W - 1 →
      ((stepN ((aliasRuntime W t).step_once).2 k).step_once).1 = []) ∧
    (stepN ((aliasRuntime W t).step_once).2 (W - 1)).inner.queue.current_time = t + W ∧
    ((stepN ((aliasRuntime W t).step_once).2 (W - 1)).step_once).1 = [⟨1, t⟩] := by
  have hstep := aliasRuntime_step W t hW (by omega)
  have hlt : t % W < (List.replicate W ([] : List SpikeEvent)).length := by
    rw [List.length_replicate]
    exact Nat.mod_lt _ (by omega)
  have hN : ∀ k, k ≤ W - 1 →
      stepN ((aliasRuntime W t).step_once).2 k = aliasAfter W t (t + 1 + k) := by
    intro k hk
    rw [hstep]
    have := stepN_alias W t hW hsat k 0 (by omega)
    simpa using this
  refine ⟨by rw [hstep], by rw [hstep]; rfl, ?_, ?_, ?_, ?_⟩
  · rw [hstep]
    show ((List.replicate W ([] : List SpikeEvent)).set (t % W) [⟨1, t⟩]).getD (t % W) []
      = ([⟨1, t⟩] : List SpikeEvent)
    exact getD_set_self _ _ _ _ hlt
  · intro k hk
    rw [hN k (by omega)]
    have hne : (t + (1 + k)) % W ≠ t % W := mod_shift_ne t (1 + k) W (by omega) (by omega)
    rw [aliasAfter_step_quiet W t (t + 1 + k) hW (by omega)
      (by rw [show t + 1 + k = t + (1 + k) from by omega]; exact hne)]
  · rw [hN (W - 1) (by omega)]
    show t + 1 + (W - 1) = t + W
    omega
  · rw [hN (W - 1) (by omega), show t + 1 + (W - 1) = t + W from by omega]
    unfold SnnRuntimePlus.step_once SnnRuntimePlus.step_once_with_budgets aliasAfter
      TimeWheel.next
    simp only []
    rw [Nat.add_mod_right t W]
    show ((List.replicate W ([] : List SpikeEvent)).set (t % W) [⟨1, t⟩]).getD (t % W) []
      = ([⟨1, t⟩] : List SpikeEvent)
    exact getD_set_self _ _ _ _ hlt

/-- C7 witness: `W = 3`, `t = 5`; the induced spike reappears at
`current_time = 8`. -/
theorem C7_delay_zero_witness :
    (1 ≤ 3 ∧ 5 + 3 ≤ U64_MAX) ∧
    (((aliasRuntime 3 5).step_once).1 = [⟨0, 5⟩] ∧
     ((aliasRuntime 3 5).step_once).2.inner.queue.current_time = 5 + 1 ∧
     ((aliasRuntime 3 5).step_once).2.inner.queue.buckets.getD (5 % 3) [] = [⟨1, 5⟩] ∧
     (∀ k, k < 3 - 1 →
       ((stepN ((aliasRuntime 3 5).step_once).2 k).step_once).1 = []) ∧
     (stepN ((aliasRuntime 3 5).step_once).2 (3 - 1)).inner.queue.current_time = 5 + 3 ∧
     ((stepN ((aliasRuntime 3 5).step_once).2 (3 - 1)).step_once).1 = [⟨1, 5⟩]) :=
  ⟨⟨by decide, by norm_num [U64_MAX]⟩,
   C7_delay_zero_spike_one_revolution_late 3 5 (by decide) (by norm_num [U64_MAX])⟩

theorem budgetTrip_step_zero (W t : Nat) (m th wgt : Int) (hW : 1 ≤ W)
    (ht : t + 1 ≤ U64_MAX) (hfire : th ≤ sat32 (m + wgt)) :
    (budgetTripRuntime W t m th wgt).step_once_with_budgets ⟨none, some 0⟩ =
      ([⟨0, t⟩],
       { inner := { neurons := [⟨0, 0, 0, 0⟩, ⟨1, 0, th, 0⟩],
                    edges := [⟨0, [0], [1], wgt, 0⟩],
                    queue := { buckets := List.replicate W [],
                               current_time := t + 1, wheel_size := W } },
         source_to_edges := [[0], []] }) := by
  have hlt : t % W < (List.replicate W ([] : List SpikeEvent)).length := by
    rw [List.length_replicate]
    exact Nat.mod_lt _ (by omega)
  have hpop : ((List.replicate W ([] : List SpikeEvent)).set (t % W) [⟨0, t⟩]).getD (t % W) []
      = [⟨0, t⟩] := getD_set_self _ _ _ _ hlt
  have hclear : (((List.replicate W ([] : List SpikeEvent)).set (t % W) [⟨0, t⟩]).set (t % W) [])
      = List.replicate W [] := by
    rw [List.set_set, set_replicate_same]
  have hs0 : sadd64 t 0 = t := sadd64_eq t 0 (by omega)
  have hs1 : sadd64 t 1 = t + 1 := sadd64_eq t 1 ht
  unfold budgetTripRuntime SnnRuntimePlus.step_once_with_budgets TimeWheel.next
  simp only [hpop, hclear, hs1]
  rw [deliverEvents, if_neg (by simp)]
  simp only [List.getElem?_cons_zero]
  rw [deliverEdges, if_neg (by simp), if_neg (by simp [budgetReached]), if_pos (by simp)]
  simp only [show (([⟨0, [0], [1], wgt, 0⟩] : List HyperEdge).getD 0 dummyEdge) =
    (⟨0, [0], [1], wgt, 0⟩ : HyperEdge) from rfl]
  rw [deliverTargets, if_neg (by simp), if_pos (by simp)]
  simp only [hs0]
  rw [show (([⟨0, 0, 0, 0⟩, ⟨1, m, th, 0⟩] : List Neuron).getD 1 dummyNeuron) =
    (⟨1, m, th, 0⟩ : Neuron) from rfl]
  rw [show (Neuron.inject ⟨1, m, th, 0⟩ wgt t) = (⟨1, 0, th, 0⟩, true) from by
    unfold Neuron.inject
    rw [if_neg (by exact Nat.not_lt_zero t), if_pos (by exact hfire)]]
  rw [if_pos (show (((⟨1, 0, th, 0⟩ : Neuron), true).2 = true) from rfl),
    if_pos (show (budgetReached (some 0) 0 = true) from by simp [budgetReached])]
  rw [deliverEvents_of_aborted _ _ _ _ _ (by rfl)]
  rfl

theorem budgetTrip_step_none (W t : Nat) (m th wgt : Int) (hW : 1 ≤ W)
    (ht : t + 1 ≤ U64_MAX) (hfire : th ≤ sat32 (m + wgt)) :
    (budgetTripRuntime W t m th wgt).step_once_with_budgets ⟨none, none⟩ =
      ([⟨0, t⟩],
       { inner := { neurons := [⟨0, 0, 0, 0⟩, ⟨1, 0, th, 0⟩],
                    edges := [⟨0, [0], [1], wgt, 0⟩],
                    queue := { buckets := (List.replicate W []).set (t % W) [⟨1, t⟩],
                               current_time := t + 1, wheel_size := W } },
         source_to_edges := [[0], []] }) := by
  have hlt : t % W < (List.replicate W ([] : List SpikeEvent)).length := by
    rw [List.length_replicate]
    exact Nat.mod_lt _ (by omega)
  have hpop : ((List.replicate W ([] : List SpikeEvent)).set (t % W) [⟨0, t⟩]).getD (t % W) []
      = [⟨0, t⟩] := getD_set_self _ _ _ _ hlt
  have hclear : (((List.replicate W ([] : List SpikeEvent)).set (t % W) [⟨0, t⟩]).set (t % W) [])
      = List.replicate W [] := by
    rw [List.set_set, set_replicate_same]
  have hs0 : sadd64 t 0 = t := sadd64_eq t 0 (by omega)
  have hs1 : sadd64 t 1 = t + 1 := sadd64_eq t 1 ht
  unfold budgetTripRuntime SnnRuntimePlus.step_once_with_budgets TimeWheel.next
  simp only [hpop, hclear, hs1]
  rw [deliverEvents, if_neg (by simp)]
  simp only [List.getElem?_cons_zero]
  rw [deliverEdges, if_neg (by simp), if_neg (by simp [budgetReached]), if_pos (by simp)]
  simp only [show (([⟨0, [0], [1], wgt, 0⟩] : List HyperEdge).getD 0 dummyEdge) =
    (⟨0, [0], [1], wgt, 0⟩ : HyperEdge) from rfl]
  rw [deliverTargets, if_neg (by simp), if_pos (by simp)]
  simp only [hs0]
  rw [show (([⟨0, 0, 0, 0⟩, ⟨1, m, th, 0⟩] : List Neuron).getD 1 dummyNeuron) =
    (⟨1, m, th, 0⟩ : Neuron) from rfl]
  rw [show (Neuron.inject ⟨1, m, th, 0⟩ wgt t) = (⟨1, 0, th, 0⟩, true) from by
    unfold Neuron.inject
    rw [if_neg (by exact Nat.not_lt_zero t), if_pos (by exact hfire)]]
  rw [if_pos (show (((⟨1, 0, th, 0⟩ : Neuron), true).2 = true) from rfl),
    if_neg (show ¬ (budgetReached none 0 = true) from by simp [budgetReached])]
  rw [deliverTargets, deliverEdges, deliverEvents]
  unfold TimeWheel.schedule
  simp only []
  rw [show ((List.replicate W ([] : List SpikeEvent)).getD (t % W) []) = [] from
    getD_replicate_default _ _ _]
  rfl

/-- C9: when the `max_spikes_scheduled` budget trips at a firing target, the
injection has already been committed — the target's membrane (initially `m`)
is reset to 0 by the firing — yet no spike event for the target is anywhere
in the wheel (all buckets are empty), so the fired spike is silently dropped
rather than the target's state rolled back; the unbudgeted step from the
same state schedules `{1, t}` into bucket `t mod W`. -/
theorem C9_budget_trip_commits_injection (W t : Nat) (m th wgt : Int) (hW : 1 ≤ W)
    (ht : t + 1 ≤ U64_MAX) (hfire : th ≤ sat32 (m + wgt)) :
    ((budgetTripRuntime W t m th wgt).inner.neurons.getD 1 dummyNeuron).membrane = m ∧
    (((budgetTripRuntime W t m th wgt).step_once_with_budgets
        ⟨none, some 0⟩).2.inner.neurons.getD 1 dummyNeuron).membrane = 0 ∧
    ((budgetTripRuntime W t m th wgt).step_once_with_budgets
        ⟨none, some 0⟩).2.inner.queue.buckets = List.replicate W [] ∧
    ((budgetTripRuntime W t m th wgt).step_once_with_budgets
        ⟨none, none⟩).2.inner.queue.buckets.getD (t % W) [] = [⟨1, t⟩] := by
  refine ⟨rfl, ?_, ?_, ?_⟩
  · rw [budgetTrip_step_zero W t m th wgt hW ht hfire]
    rfl
  · rw [budgetTrip_step_zero W t m th wgt hW ht hfire]
  · rw [budgetTrip_step_none W t m th wgt hW ht hfire]
    show ((List.replicate W ([] : List SpikeEvent)).set (t % W) [⟨1, t⟩]).getD (t % W) []
      = ([⟨1, t⟩] : List SpikeEvent)
    exact getD_set_self _ _ _ _ (by rw [List.length_replicate]; exact Nat.mod_lt _ (by omega))

/-- C9 witness: `W = 4`, `t = 1`, membrane 5, threshold 10, weight 6. -/
theorem C9_budget_trip_witness :
    (1 ≤ 4 ∧ 1 + 1 ≤ U64_MAX ∧ (10 : Int) ≤ sat32 (5 + 6)) ∧
    (((budgetTripRuntime 4 1 5 10 6).inner.neurons.getD 1 dummyNeuron).membrane = 5 ∧
     (((budgetTripRuntime 4 1 5 10 6).step_once_with_budgets
         ⟨none, some 0⟩).2.inner.neurons.getD 1 dummyNeuron).membrane = 0 ∧
     ((budgetTripRuntime 4 1 5 10 6).step_once_with_budgets
         ⟨none, some 0⟩).2.inner.queue.buckets = List.replicate 4 [] ∧
     ((budgetTripRuntime 4 1 5 10 6).step_once_with_budgets
         ⟨none, none⟩).2.inner.queue.buckets.getD (1 % 4) [] = [⟨1, 1⟩]) :=
  ⟨⟨by decide, by norm_num [U64_MAX], by decide⟩,
   C9_budget_trip_commits_injection 4 1 5 10 6 (by decide) (by norm_num [U64_MAX]) (by decide)⟩

theorem deliverTargets_queue_props (b : StepBudgets) (w : Int) (dt : Nat)
    (tgts : List Nat) :
    ∀ st : DeliverSt,
      (deliverTargets b w dt tgts st).queue.current_time = st.queue.current_time ∧
      (deliverTargets b w dt tgts st).queue.wheel_size = st.queue.wheel_size ∧
      (deliverTargets b w dt tgts st).queue.buckets.length = st.queue.buckets.length := by
  induction tgts with
  | nil => intro st; exact ⟨rfl, rfl, rfl⟩
  | cons tgt rest ih =>
    intro st
    rw [deliverTargets]
    split
    · exact ⟨rfl, rfl, rfl⟩
    · split
      · simp only []
        split
        · split
          · exact ⟨rfl, rfl, rfl⟩
          · refine ⟨(ih _).1, (ih _).2.1, ?_⟩
            rw [(ih _).2.2]
            simp [TimeWheel.schedule]
        · exact ih _
      · exact ih _

theorem deliverEdges_queue_props (b : StepBudgets) (edges : List HyperEdge)
    (ev : SpikeEvent) (eids : List Nat) :
    ∀ st : DeliverSt,
      (deliverEdges b edges ev eids st).queue.current_time = st.queue.current_time ∧
      (deliverEdges b edges ev eids st).queue.wheel_size = st.queue.wheel_size ∧
      (deliverEdges b edges ev eids st).queue.buckets.length = st.queue.buckets.length := by
  induction eids with
  | nil => intro st; exact ⟨rfl, rfl, rfl⟩
  | cons eid rest ih =>
    intro st
    rw [deliverEdges]
    split
    · exact ⟨rfl, rfl, rfl⟩
    · split
      · exact ⟨rfl, rfl, rfl⟩
      · simp only []
        split
        · have hT := deliverTargets_queue_props b
            ((edges.getD eid dummyEdge).weight) (sadd64 ev.time (edges.getD eid dummyEdge).delay)
            ((edges.getD eid dummyEdge).targets) { st with edge_visits := st.edge_visits + 1 }
          refine ⟨?_, ?_, ?_⟩
          · rw [(ih _).1, hT.1]
          · rw [(ih _).2.1, hT.2.1]
          · rw [(ih _).2.2, hT.2.2]
        · exact ih _

theorem deliverEvents_queue_props (b : StepBudgets) (adj : List (List Nat))
    (edges : List HyperEdge) (evs : List SpikeEvent) :
    ∀ st : DeliverSt,
      (deliverEvents b adj edges evs st).queue.current_time = st.queue.current_time ∧
      (deliverEvents b adj edges evs st).queue.wheel_size = st.queue.wheel_size ∧
      (deliverEvents b adj edges evs st).queue.buckets.length = st.queue.buckets.length := by
  induction evs with
  | nil => intro st; exact ⟨rfl, rfl, rfl⟩
  | cons ev rest ih =>
    intro st
    rw [deliverEvents]
    split
    · exact ⟨rfl, rfl, rfl⟩
    · split
      · exact ih _
      · rename_i eids heq
        have hE := deliverEdges_queue_props b edges ev eids st
        refine ⟨?_, ?_, ?_⟩
        · rw [(ih _).1, hE.1]
        · rw [(ih _).2.1, hE.2.1]
        · rw [(ih _).2.2, hE.2.2]

/-- Every budgeted step advances `current_time` by exactly one saturating
tick, whatever delivery does. -/
theorem step_current_time (rt : SnnRuntimePlus) (b : StepBudgets) :
    ((rt.step_once_with_budgets b).2).inner.queue.current_time =
      sadd64 rt.inner.queue.current_time 1 :=
  (deliverEvents_queue_props b rt.source_to_edges rt.inner.edges _ _).1

/-- Stepping preserves wheel well-formedness. -/
theorem step_wf (rt : SnnRuntimePlus) (b : StepBudgets) (h : rt.inner.queue.WF) :
    ((rt.step_once_with_budgets b).2).inner.queue.WF := by
  obtain ⟨hlen, hpos⟩ := h
  have hP := deliverEvents_queue_props b rt.source_to_edges rt.inner.edges
    ((rt.inner.queue.next).1)
    ⟨rt.inner.neurons, (rt.inner.queue.next).2, 0, 0, false⟩
  constructor
  · rw [show ((rt.step_once_with_budgets b).2).inner.queue.buckets.length =
      (deliverEvents b rt.source_to_edges rt.inner.edges ((rt.inner.queue.next).1)
        ⟨rt.inner.neurons, (rt.inner.queue.next).2, 0, 0, false⟩).queue.buckets.length from rfl]
    rw [hP.2.2]
    rw [show ((rt.step_once_with_budgets b).2).inner.queue.wheel_size =
      (deliverEvents b rt.source_to_edges rt.inner.edges ((rt.inner.queue.next).1)
        ⟨rt.inner.neurons, (rt.inner.queue.next).2, 0, 0, false⟩).queue.wheel_size from rfl]
    rw [hP.2.1]
    show ((rt.inner.queue.buckets.set _ []).length) = rt.inner.queue.wheel_size
    rw [List.length_set]
    exact hlen
  · rw [show ((rt.step_once_with_budgets b).2).inner.queue.wheel_size =
      (deliverEvents b rt.source_to_edges rt.inner.edges ((rt.inner.queue.next).1)
        ⟨rt.inner.neurons, (rt.inner.queue.next).2, 0, 0, false⟩).queue.wheel_size from rfl]
    rw [hP.2.1]
    exact hpos

theorem runUntilFuel_spec (d : Nat) :
    ∀ (fuel : Nat) (rt : SnnRuntimePlus) (untilTick : Nat),
      untilTick < U64_MAX →
      rt.inner.queue.current_time + d = untilTick + 1 →
      d ≤ fuel →
      rt.inner.queue.WF →
      ∃ rt', runUntilFuel fuel rt untilTick = some (rt', d) ∧
        rt'.inner.queue.current_time = untilTick + 1 ∧ rt'.inner.queue.WF := by
  induction d with
  | zero =>
    intro fuel rt untilTick hU hct hf hwf
    refine ⟨rt, ?_, by omega, hwf⟩
    cases fuel with
    | zero => rw [runUntilFuel, if_neg (by omega)]
    | succ f => rw [runUntilFuel, if_neg (by omega)]
  | succ d ih =>
    intro fuel rt untilTick hU hct hf hwf
    cases fuel with
    | zero => omega
    | succ f =>
      have hle : rt.inner.queue.current_time ≤ untilTick := by omega
      have hstep : ((rt.step_once).2).inner.queue.current_time =
          rt.inner.queue.current_time + 1 := by
        rw [show rt.step_once = rt.step_once_with_budgets StepBudgets.defaults from rfl,
          step_current_time, sadd64_eq _ _ (by omega)]
      obtain ⟨rt', h1, h2, h3⟩ := ih f (rt.step_once).2 untilTick hU (by omega) (by omega)
        (step_wf rt StepBudgets.defaults hwf)
      refine ⟨rt', ?_, h2, h3⟩
      rw [runUntilFuel, if_pos hle, h1]

/-- C10: because `run_until(until)` loops while `current_time ≤ until`
(inclusive) and `run_ticks(n)` targets `current_time + n`, `run_ticks(n)`
performs `n + 1` calls to `step_once`; when `t + n + 1` does not saturate,
the final `current_time` is `t + n + 1`, not `t + n`. -/
theorem C10_run_ticks_steps_n_plus_one (rt : SnnRuntimePlus) (n fuel : Nat)
    (hwf : rt.inner.queue.WF)
    (hsat : rt.inner.queue.current_time + n + 1 ≤ U64_MAX)
    (hfuel : n + 1 ≤ fuel) :
    ∃ rt', runTicksFuel fuel rt n = some (rt', n + 1) ∧
      rt'.inner.queue.current_time = rt.inner.queue.current_time + n + 1 := by
  unfold runTicksFuel
  rw [sadd64_eq _ _ (by omega)]
  obtain ⟨rt', h1, h2, h3⟩ := runUntilFuel_spec (n + 1) fuel rt
    (rt.inner.queue.current_time + n) (by omega) (by omega) hfuel hwf
  exact ⟨rt', h1, by omega⟩

/-- C10 witness: a fresh 4-slot runtime stepped for `n = 2` ticks performs 3
steps and ends at `current_time = 3`. -/
theorem C10_run_ticks_witness :
    ((SnnRuntimePlus.new 4).inner.queue.WF ∧
     (SnnRuntimePlus.new 4).inner.queue.current_time + 2 + 1 ≤ U64_MAX ∧
     2 + 1 ≤ 5) ∧
    (∃ rt', runTicksFuel 5 (SnnRuntimePlus.new 4) 2 = some (rt', 2 + 1) ∧
      rt'.inner.queue.current_time =
        (SnnRuntimePlus.new 4).inner.queue.current_time + 2 + 1) :=
  ⟨⟨by decide, by norm_num [U64_MAX, SnnRuntimePlus.new, SnnRuntime.new, TimeWheel.new],
    by decide⟩,
   C10_run_ticks_steps_n_plus_one (SnnRuntimePlus.new 4) 2 5 (by decide)
     (by norm_num [U64_MAX, SnnRuntimePlus.new, SnnRuntime.new, TimeWheel.new]) (by decide)⟩

theorem getD_append_left {α : Type} (l1 l2 : List α) (i : Nat) (d : α)
    (h : i < l1.length) : (l1 ++ l2).getD i d = l1.getD i d := by
  rw [List.getD_eq_getElem?_getD, List.getD_eq_getElem?_getD, List.getElem?_append_left h]

theorem getD_append_right {α : Type} (l1 l2 : List α) (i : Nat) (d : α)
    (h : l1.length ≤ i) : (l1 ++ l2).getD i d = l2.getD (i - l1.length) d := by
  rw [List.getD_eq_getElem?_getD, List.getD_eq_getElem?_getD, List.getElem?_append_right h]

theorem ensure_getD (adj : List (List Nat)) (id s : Nat) :
    (ensureNeuronCapacity adj id).getD s [] = adj.getD s [] := by
  unfold ensureNeuronCapacity
  split
  · by_cases hs : s < adj.length
    · rw [getD_append_left _ _ _ _ hs]
    · rw [getD_append_right _ _ _ _ (by omega), getD_replicate_default,
        List.getD_eq_default _ _ (by omega)]
  · rfl

theorem ensure_length (adj : List (List Nat)) (id : Nat) :
    adj.length ≤ (ensureNeuronCapacity adj id).length ∧
    id + 1 ≤ (ensureNeuronCapacity adj id).length := by
  unfold ensureNeuronCapacity
  split
  · rw [List.length_append, List.length_replicate]
    omega
  · omega

theorem addEdge_fold_getD (next_id : Nat) (sources : List Nat) :
    ∀ (adj : List (List Nat)) (s : Nat), sources.Nodup →
      (sources.foldl (addEdgeStep next_id) adj).getD s [] =
        adj.getD s [] ++ (if s ∈ sources then [next_id] else []) := by
  induction sources with
  | nil =>
    intro adj s _
    simp
  | cons s0 srest ih =>
    intro adj s hnd
    rw [List.foldl_cons]
    have hnd' : srest.Nodup := hnd.of_cons
    have hs0 : s0 ∉ srest := by
      rcases List.nodup_cons.mp hnd with ⟨h1, _⟩
      exact h1
    rw [ih (addEdgeStep next_id adj s0) s hnd']
    by_cases hss : s = s0
    · subst hss
      have hins : s ∉ srest := hs0
      rw [if_neg hins, if_pos (List.mem_cons_self s srest)]
      have hlen : s < (ensureNeuronCapacity adj s).length := (ensure_length adj s).2
      rw [show addEdgeStep next_id adj s =
        (ensureNeuronCapacity adj s).set s ((ensureNeuronCapacity adj s).getD s [] ++ [next_id])
        from rfl]
      rw [getD_set_self _ _ _ _ hlen, ensure_getD]
      simp
    · rw [show addEdgeStep next_id adj s0 =
        (ensureNeuronCapacity adj s0).set s0 ((ensureNeuronCapacity adj s0).getD s0 [] ++ [next_id])
        from rfl]
      rw [getD_set_ne _ _ _ _ _ (fun hx => hss hx.symm), ensure_getD]
      by_cases hmem : s ∈ srest
      · rw [if_pos hmem, if_pos (List.mem_cons_of_mem s0 hmem)]
      · rw [if_neg hmem, if_neg (by
          intro hx
          rcases List.mem_cons.mp hx with hx | hx
          · exact hss hx
          · exact hmem hx)]

theorem rebuildStep_length (eid : Nat) (adj : List (List Nat)) (s : Nat) :
    (rebuildStep eid adj s).length = adj.length := by
  unfold rebuildStep
  split
  · rw [List.length_set]
  · rfl

theorem rebuildFold_length (eid : Nat) (sources : List Nat) :
    ∀ adj : List (List Nat), (sources.foldl (rebuildStep eid) adj).length = adj.length := by
  induction sources with
  | nil => intro adj; rfl
  | cons s0 srest ih =>
    intro adj
    rw [List.foldl_cons, ih, rebuildStep_length]

theorem rebuildEdge_length (adj : List (List Nat)) (e : HyperEdge) :
    (rebuildEdge adj e).length = adj.length :=
  rebuildFold_length e.id e.sources adj

theorem rebuildEdgesFold_length (edges : List HyperEdge) :
    ∀ adj : List (List Nat), (edges.foldl rebuildEdge adj).length = adj.length := by
  induction edges with
  | nil => intro adj; rfl
  | cons e0 erest ih =>
    intro adj
    rw [List.foldl_cons, ih, rebuildEdge_length]

theorem rebuildFold_getD (eid : Nat) (sources : List Nat) :
    ∀ (adj : List (List Nat)) (s : Nat), sources.Nodup →
      (sources.foldl (rebuildStep eid) adj).getD s [] =
        adj.getD s [] ++ (if s ∈ sources ∧ s < adj.length then [eid] else []) := by
  induction sources with
  | nil =>
    intro adj s _
    simp
  | cons s0 srest ih =>
    intro adj s hnd
    rw [List.foldl_cons]
    have hnd' : srest.Nodup := hnd.of_cons
    have hs0 : s0 ∉ srest := (List.nodup_cons.mp hnd).1
    rw [ih (rebuildStep eid adj s0) s hnd', rebuildStep_length]
    by_cases hss : s = s0
    · subst hss
      rw [if_neg (by
        intro hx
        exact hs0 hx.1)]
      by_cases hlen : s < adj.length
      · rw [show rebuildStep eid adj s = adj.set s (adj.getD s [] ++ [eid]) from by
          unfold rebuildStep
          rw [if_pos hlen]]
        rw [getD_set_self _ _ _ _ hlen,
          if_pos ⟨List.mem_cons_self s srest, hlen⟩]
        simp
      · rw [show rebuildStep eid adj s = adj from by
          unfold rebuildStep
          rw [if_neg hlen]]
        rw [if_neg (by
          intro hx
          exact hlen hx.2)]
    · have hgd : (rebuildStep eid adj s0).getD s [] = adj.getD s [] := by
        unfold rebuildStep
        split
        · rw [getD_set_ne _ _ _ _ _ (fun hx => hss hx.symm)]
        · rfl
      rw [hgd]
      by_cases hmem : s ∈ srest ∧ s < adj.length
      · rw [if_pos hmem, if_pos ⟨List.mem_cons_of_mem s0 hmem.1, hmem.2⟩]
      · rw [if_neg hmem, if_neg (by
          intro hx
          rcases List.mem_cons.mp hx.1 with hy | hy
          · exact hss hy
          · exact hmem ⟨hy, hx.2⟩)]

theorem rebuildEdgesFold_getD (edges : List HyperEdge) :
    ∀ (adj : List (List Nat)) (s : Nat), (∀ e ∈ edges, e.sources.Nodup) → s < adj.length →
      (edges.foldl rebuildEdge adj).getD s [] =
        adj.getD s [] ++
          ((edges.filter (fun e => decide (s ∈ e.sources))).map (fun e => e.id)) := by
  induction edges with
  | nil =>
    intro adj s _ _
    simp
  | cons e0 erest ih =>
    intro adj s hnd hlen
    rw [List.foldl_cons]
    have h0 : e0.sources.Nodup := hnd e0 (List.mem_cons_self e0 erest)
    have hrest : ∀ e ∈ erest, e.sources.Nodup := fun e he =>
      hnd e (List.mem_cons_of_mem e0 he)
    rw [ih (rebuildEdge adj e0) s hrest (by rw [rebuildEdge_length]; exact hlen)]
    rw [show rebuildEdge adj e0 = e0.sources.foldl (rebuildStep e0.id) adj from rfl,
      rebuildFold_getD e0.id e0.sources adj s h0]
    by_cases hmem : s ∈ e0.sources
    · rw [if_pos ⟨hmem, hlen⟩, List.filter_cons_of_pos (by simpa using hmem), List.map_cons]
      simp
    · rw [if_neg (by
        intro hx
        exact hmem hx.1), List.filter_cons_of_neg (by simpa using hmem)]
      simp

theorem rebuildFold_getD_out (eid : Nat) (sources : List Nat) :
    ∀ (adj : List (List Nat)) (s : Nat), ¬ s < adj.length →
      (sources.foldl (rebuildStep eid) adj).getD s [] = adj.getD s [] := by
  induction sources with
  | nil =>
    intro adj s _
    rfl
  | cons s0 srest ih =>
    intro adj s hlen
    rw [List.foldl_cons,
      ih (rebuildStep eid adj s0) s (by rw [rebuildStep_length]; exact hlen)]
    unfold rebuildStep
    split
    · rw [getD_set_ne]
      intro hx
      subst hx
      rename_i hx
      exact hlen hx
    · rfl

theorem rebuildEdgesFold_getD_out (edges : List HyperEdge) :
    ∀ (adj : List (List Nat)) (s : Nat), ¬ s < adj.length →
      (edges.foldl rebuildEdge adj).getD s [] = adj.getD s [] := by
  induction edges with
  | nil =>
    intro adj s _
    rfl
  | cons e0 erest ih =>
    intro adj s hlen
    rw [List.foldl_cons, ih (rebuildEdge adj e0) s (by rw [rebuildEdge_length]; exact hlen)]
    exact rebuildFold_getD_out e0.id e0.sources adj s hlen

theorem ids_map_range (edges : List HyperEdge)
    (h : ∀ i < edges.length, (edges.getD i dummyEdge).id = i) :
    edges.map (fun e => e.id) = List.range edges.length := by
  apply List.ext_getElem?
  intro n
  rw [List.getElem?_map]
  by_cases hn : n < edges.length
  · rw [List.getElem?_eq_getElem hn, List.getElem?_range hn]
    have := h n hn
    rw [List.getD_eq_getElem _ _ hn] at this
    simp [this]
  · rw [List.getElem?_eq_none_iff.mpr (by omega), List.getElem?_eq_none_iff.mpr (by
      rw [List.length_range]
      omega)]
    rfl

theorem mem_filter_map_id (edges : List HyperEdge) (s e : Nat) :
    (e ∈ (edges.filter (fun he => decide (s ∈ he.sources))).map (fun he => he.id)) ↔
      ∃ he ∈ edges, s ∈ he.sources ∧ he.id = e := by
  rw [List.mem_map]
  constructor
  · rintro ⟨he, hmem, hid⟩
    rcases List.mem_filter.mp hmem with ⟨h1, h2⟩
    exact ⟨he, h1, by simpa using h2, hid⟩
  · rintro ⟨he, h1, h2, h3⟩
    exact ⟨he, List.mem_filter.mpr ⟨h1, by simpa using h2⟩, h3⟩

theorem goodState_new (W : Nat) : GoodState (SnnRuntimePlus.new W) := by
  refine ⟨?_, ?_, ?_, ?_, ?_⟩
  · intro i hi
    simp [SnnRuntimePlus.new, SnnRuntime.new] at hi
  · intro he hmem
    simp [SnnRuntimePlus.new, SnnRuntime.new] at hmem
  · intro he hmem
    simp [SnnRuntimePlus.new, SnnRuntime.new] at hmem
  · intro s
    show (([] : List (List Nat)).getD s []).Nodup
    rw [List.getD_eq_default _ _ (by simp)]
    exact List.nodup_nil
  · intro s e
    show e ∈ ([] : List (List Nat)).getD s [] ↔ _
    rw [List.getD_eq_default _ _ (by simp)]
    simp [SnnRuntimePlus.new, SnnRuntime.new]

theorem add_neuron_neurons_length (rt : SnnRuntimePlus) (th : Int) :
    (rt.add_neuron th).2.inner.neurons.length = rt.inner.neurons.length + 1 := by
  show (rt.inner.neurons ++ [Neuron.new rt.inner.neurons.length th]).length = _
  rw [List.length_append]
  rfl

theorem goodState_add_neuron (rt : SnnRuntimePlus) (th : Int) (h : GoodState rt) :
    GoodState (rt.add_neuron th).2 := by
  obtain ⟨h1, h2, h3, h4, h5⟩ := h
  refine ⟨h1, ?_, h3, ?_, ?_⟩
  · intro he hmem s hs
    rw [add_neuron_neurons_length]
    have := h2 he hmem s hs
    omega
  · intro s
    show ((ensureNeuronCapacity rt.source_to_edges rt.inner.neurons.length).getD s []).Nodup
    rw [ensure_getD]
    exact h4 s
  · intro s e
    show e ∈ (ensureNeuronCapacity rt.source_to_edges rt.inner.neurons.length).getD s [] ↔ _
    rw [ensure_getD]
    exact h5 s e

theorem goodState_add_edge (rt : SnnRuntimePlus) (sources targets : List Nat)
    (w : Int) (d : Nat) (h : GoodState rt) (hnd : sources.Nodup)
    (hb : ∀ x ∈ sources, x < rt.inner.neurons.length) :
    GoodState (rt.add_edge sources targets w d) := by
  obtain ⟨h1, h2, h3, h4, h5⟩ := h
  have hlen : (rt.add_edge sources targets w d).inner.edges =
      rt.inner.edges ++ [⟨rt.inner.edges.length, sources, targets, w, d⟩] := rfl
  have hadj : ∀ s : Nat,
      (rt.add_edge sources targets w d).source_to_edges.getD s [] =
        rt.source_to_edges.getD s [] ++
          (if s ∈ sources then [rt.inner.edges.length] else []) := by
    intro s
    exact addEdge_fold_getD rt.inner.edges.length sources rt.source_to_edges s hnd
  have hmemold : ∀ s e : Nat, e ∈ rt.source_to_edges.getD s [] → e < rt.inner.edges.length :=
    fun s e he => ((h5 s e).mp he).1
  refine ⟨?_, ?_, ?_, ?_, ?_⟩
  · intro i hi
    rw [hlen] at hi ⊢
    rw [List.length_append] at hi
    by_cases hio : i < rt.inner.edges.length
    · rw [getD_append_left _ _ _ _ hio]
      exact h1 i hio
    · have : i = rt.inner.edges.length := by
        simp at hi
        omega
      subst this
      rw [getD_append_right _ _ _ _ (by omega)]
      simp
  · intro he hmem
    rw [hlen] at hmem
    rcases List.mem_append.mp hmem with hm | hm
    · exact h2 he hm
    · rcases List.mem_singleton.mp hm with rfl
      exact hb
  · intro he hmem
    rw [hlen] at hmem
    rcases List.mem_append.mp hmem with hm | hm
    · exact h3 he hm
    · rcases List.mem_singleton.mp hm with rfl
      exact hnd
  · intro s
    rw [hadj s]
    by_cases hs : s ∈ sources
    · rw [if_pos hs, List.nodup_append]
      refine ⟨h4 s, List.nodup_singleton _, ?_⟩
      intro e he hx
      rcases List.mem_singleton.mp hx with rfl
      exact absurd (hmemold s _ he) (by omega)
    · rw [if_neg hs]
      simpa using h4 s
  · intro s e
    rw [hadj s, hlen, List.mem_append]
    constructor
    · intro hx
      rcases hx with hx | hx
      · have hold := (h5 s e).mp hx
        refine ⟨by rw [List.length_append]; omega, ?_⟩
        rw [getD_append_left _ _ _ _ hold.1]
        exact hold.2
      · obtain ⟨he1, hs1⟩ : e = rt.inner.edges.length ∧ s ∈ sources := by
          by_cases hs : s ∈ sources
          · rw [if_pos hs] at hx
            exact ⟨List.mem_singleton.mp hx, hs⟩
          · rw [if_neg hs] at hx
            exact absurd hx (List.not_mem_nil e)
        refine ⟨by rw [List.length_append]; simp; omega, ?_⟩
        rw [he1, getD_append_right _ _ _ _ (by omega)]
        simpa using hs1
    · intro hx
      rcases hx with ⟨hlt, hsrc⟩
      rw [List.length_append] at hlt
      by_cases hio : e < rt.inner.edges.length
      · left
        rw [getD_append_left _ _ _ _ hio] at hsrc
        exact (h5 s e).mpr ⟨hio, hsrc⟩
      · right
        have he : e = rt.inner.edges.length := by
          simp at hlt
          omega
        subst he
        rw [getD_append_right _ _ _ _ (by omega)] at hsrc
        simp at hsrc
        rw [if_pos hsrc]
        exact List.mem_singleton.mpr rfl

theorem goodState_rebuild (rt : SnnRuntimePlus) (h : GoodState rt) :
    GoodState rt.rebuild_adjacency := by
  obtain ⟨h1, h2, h3, h4, h5⟩ := h
  have hadj : rt.rebuild_adjacency.source_to_edges =
      rt.inner.edges.foldl rebuildEdge
        (List.replicate rt.inner.neurons.length ([] : List Nat)) := rfl
  have hrep : (List.replicate rt.inner.neurons.length ([] : List Nat)).length =
      rt.inner.neurons.length := List.length_replicate _ _
  have hin : ∀ s : Nat, s < rt.inner.neurons.length →
      rt.rebuild_adjacency.source_to_edges.getD s [] =
        (rt.inner.edges.filter (fun he => decide (s ∈ he.sources))).map (fun he => he.id) := by
    intro s hs
    rw [hadj, rebuildEdgesFold_getD rt.inner.edges _ s h3 (by omega),
      getD_replicate_default]
    simp
  have hout : ∀ s : Nat, ¬ s < rt.inner.neurons.length →
      rt.rebuild_adjacency.source_to_edges.getD s [] = [] := by
    intro s hs
    rw [hadj, rebuildEdgesFold_getD_out rt.inner.edges _ s (by omega)]
    exact getD_replicate_default _ _ _
  refine ⟨h1, h2, h3, ?_, ?_⟩
  · intro s
    by_cases hs : s < rt.inner.neurons.length
    · rw [show rt.rebuild_adjacency.source_to_edges.getD s [] =
        (rt.inner.edges.filter (fun he => decide (s ∈ he.sources))).map (fun he => he.id)
        from hin s hs]
      have hsub : ((rt.inner.edges.filter (fun he => decide (s ∈ he.sources))).map
          (fun he => he.id)).Sublist (rt.inner.edges.map (fun he => he.id)) :=
        List.Sublist.map _ (List.filter_sublist _)
      rw [ids_map_range rt.inner.edges h1] at hsub
      exact hsub.nodup (List.nodup_range _)
    · rw [show rt.rebuild_adjacency.source_to_edges.getD s [] = [] from hout s hs]
      exact List.nodup_nil
  · intro s e
    simp only [show rt.rebuild_adjacency.inner.edges = rt.inner.edges from rfl]
    by_cases hs : s < rt.inner.neurons.length
    · rw [show rt.rebuild_adjacency.source_to_edges.getD s [] =
        (rt.inner.edges.filter (fun he => decide (s ∈ he.sources))).map (fun he => he.id)
        from hin s hs]
      rw [mem_filter_map_id]
      constructor
      · rintro ⟨he, hmem, hsrc, hid⟩
        rcases List.mem_iff_getElem.mp hmem with ⟨i, hilt, hieq⟩
        have hidx : (rt.inner.edges.getD i dummyEdge).id = i := h1 i hilt
        rw [List.getD_eq_getElem _ _ hilt, hieq] at hidx
        refine ⟨by omega, ?_⟩
        rw [show e = i from by omega, List.getD_eq_getElem _ _ hilt, hieq]
        exact hsrc
      · rintro ⟨hlt, hsrc⟩
        refine ⟨rt.inner.edges.getD e dummyEdge, ?_, hsrc, h1 e hlt⟩
        rw [List.getD_eq_getElem _ _ hlt]
        exact List.getElem_mem hlt
    · rw [show rt.rebuild_adjacency.source_to_edges.getD s [] = [] from hout s hs]
      constructor
      · intro hx
        exact absurd hx (List.not_mem_nil e)
      · rintro ⟨hlt, hsrc⟩
        have : s < rt.inner.neurons.length := by
          refine h2 (rt.inner.edges.getD e dummyEdge) ?_ s hsrc
          rw [List.getD_eq_getElem _ _ hlt]
          exact List.getElem_mem hlt
        exact absurd this hs

theorem execRtOps_good (ops : List RtOp) :
    ∀ rt : SnnRuntimePlus, GoodState rt → ValidOps rt.inner.neurons.length ops →
      GoodState (execRtOps rt ops) := by
  induction ops with
  | nil =>
    intro rt h _
    exact h
  | cons op rest ih =>
    intro rt h hv
    cases op with
    | addNeuron th =>
      have hv' : ValidOps (rt.add_neuron th).2.inner.neurons.length rest := by
        rw [add_neuron_neurons_length]
        exact hv
      exact ih _ (goodState_add_neuron rt th h) hv'
    | addEdge s t w d =>
      have hv0 : (decide s.Nodup && s.all (fun x => decide (x < rt.inner.neurons.length)) &&
          validOpsB rt.inner.neurons.length rest) = true := hv
      rw [Bool.and_eq_true, Bool.and_eq_true] at hv0
      have hnd : s.Nodup := by
        have := hv0.1.1
        simpa using this
      have hb : ∀ x ∈ s, x < rt.inner.neurons.length := by
        have := List.all_eq_true.mp hv0.1.2
        intro x hx
        simpa using this x hx
      exact ih _ (goodState_add_edge rt s t w d h hnd hb) hv0.2
    | rebuild =>
      exact ih _ (goodState_rebuild rt h) hv

/-! ### Claim C2 — adjacency consistency (corrected) -/

/-- C2 counterexample: the invariant does not hold after every sequence of
construction calls. (a) `add_edge` with the duplicated sources list `[0, 0]`
pushes the edge id twice into adjacency row 0, so the row `[0, 0]` has a
duplicate; (b) `add_edge` with dangling source 5 followed by
`rebuild_adjacency` drops the entry: `5 ∈ edges[0].sources` but
`0 ∉ adjacency[5]`, breaking the claimed equivalence. -/
theorem C2_counterexample_dup_and_rebuild :
    ((execRtOps (SnnRuntimePlus.new 1)
        [RtOp.addNeuron 65536, RtOp.addEdge [0, 0] [0] 1 1]).source_to_edges.getD 0 []
      = [0, 0] ∧
     ¬ ((execRtOps (SnnRuntimePlus.new 1)
        [RtOp.addNeuron 65536, RtOp.addEdge [0, 0] [0] 1 1]).source_to_edges.getD 0 []).Nodup) ∧
    (5 ∈ ((execRtOps (SnnRuntimePlus.new 1)
        [RtOp.addEdge [5] [0] 1 1, RtOp.rebuild]).inner.edges.getD 0 dummyEdge).sources ∧
     0 ∉ (execRtOps (SnnRuntimePlus.new 1)
        [RtOp.addEdge [5] [0] 1 1, RtOp.rebuild]).source_to_edges.getD 5 []) := by
  refine ⟨⟨?_, ?_⟩, ?_, ?_⟩ <;> decide

/-- C2 (amended): provided every `add_edge` call passes a duplicate-free
sources list whose ids refer to already-added neurons, the adjacency index
stays consistent with the edge table after every sequence of `add_neuron`,
`add_edge` and `rebuild_adjacency` calls: `e ∈ adjacency[s]` iff
`e < |edges| ∧ s ∈ edges[e].sources`, and no adjacency row contains a
duplicate. -/
theorem C2_adjacency_invariant (W : Nat) (ops : List RtOp) (h : ValidOps 0 ops) :
    AdjInv (execRtOps (SnnRuntimePlus.new W) ops) :=
  (execRtOps_good ops (SnnRuntimePlus.new W) (goodState_new W) h).2.2.2

/-- C2 witness: a concrete valid call sequence exercising all three
operations. -/
theorem C2_adjacency_witness :
    ValidOps 0 [RtOp.addNeuron 65536, RtOp.addNeuron 65536,
      RtOp.addEdge [0, 1] [1] 1 1, RtOp.rebuild, RtOp.addEdge [1] [0] 1 2] ∧
    AdjInv (execRtOps (SnnRuntimePlus.new 4)
      [RtOp.addNeuron 65536, RtOp.addNeuron 65536,
       RtOp.addEdge [0, 1] [1] 1 1, RtOp.rebuild, RtOp.addEdge [1] [0] 1 2]) :=
  ⟨by decide,
   C2_adjacency_invariant 4
     [RtOp.addNeuron 65536, RtOp.addNeuron 65536,
      RtOp.addEdge [0, 1] [1] 1 1, RtOp.rebuild, RtOp.addEdge [1] [0] 1 2] (by decide)⟩
end Snn
